import Mathlib

/-!
Verification development for the haruDB storage and transaction engine.

The Go sources are shallowly embedded as Lean definitions:

* `Table`, `Database` mirror the structs in internal/storage/memory.go.
  Go maps (`map[string]...`) are modelled as association lists with
  first-match lookup; only lookup, in-place replacement, and deletion are
  used, so iteration order never influences results.
* File-system effects are modelled by explicit state: `Database.disk` holds
  the contents of the `.harudb` table files and `Database.wal` the sequence
  of records appended to `wal.log`.  `fsync` has no observable effect in a
  crash-free model and is not represented.
* WAL appends and table-file writes succeed in this model; the Go error
  branches for failing I/O are unreachable here and are noted in comments.
* Timestamps carried by WAL entries and transactions never influence the
  control flow that is modelled (the checkpoint-timestamp comparison in
  ReplayWAL is commented out in the source), so they are omitted.
-/

namespace HaruDB

/-- First-match lookup in an association list, mirroring Go map indexing. -/
def lookupA {α : Type} (m : List (String × α)) (k : String) : Option α :=
  match m.find? (fun p => p.1 == k) with
  | some p => some p.2
  | none => none

/-- Map update `m[k] = v`: replaces the binding in place, or appends it. -/
def insertA {α : Type} (m : List (String × α)) (k : String) (v : α) : List (String × α) :=
  match m with
  | [] => [(k, v)]
  | (k0, v0) :: rest =>
      if k0 == k then (k, v) :: rest else (k0, v0) :: insertA rest k v

/-- Map deletion `delete(m, k)`. -/
def removeA {α : Type} (m : List (String × α)) (k : String) : List (String × α) :=
  match m with
  | [] => []
  | (k0, v0) :: rest =>
      if k0 == k then rest else (k0, v0) :: removeA rest k

/-- `strings.ToLower` (ASCII-identical to Go; written on the character
list so that proofs can evaluate it). -/
def goToLower (s : String) : String := String.mk (s.data.map Char.toLower)

/-- `strings.TrimSpace`: strip leading and trailing whitespace. -/
def goTrim (s : String) : String :=
  String.mk (((s.data.dropWhile Char.isWhitespace).reverse.dropWhile
    Char.isWhitespace).reverse)

/-- Byte-wise `<` on Go strings (UTF-8 order equals code-point order). -/
def strLt (a b : String) : Bool := go a.data b.data
where
  go : List Char → List Char → Bool
    | [], [] => false
    | [], _ :: _ => true
    | _ :: _, [] => false
    | c1 :: r1, c2 :: r2 => if c1 = c2 then go r1 r2 else decide (c1 < c2)

/-- Byte-wise `<=` on Go strings. -/
def strLe (a b : String) : Bool := strLt a b || a == b

/-- One row of a table: a sequence of string cell values. -/
abbrev Row := List String

/-- Hash-index buckets for one column: value to list of row positions,
in insertion order (Go `map[string][]int`). -/
abbrev Buckets := List (String × List Nat)

/-- Mirrors `storage.Table`.  `indexes` maps an indexed column name to its
buckets (`Indexes map[string]map[string][]int` in the source; the nil map
and the empty map behave identically under the operations modelled, so both
are represented by `[]`). -/
structure Table where
  name : String
  columns : List String
  rows : List Row
  indexedColumns : List String
  indexes : List (String × Buckets)
deriving Repr, DecidableEq

/-- On-disk `.harudb` table file payload (internal/storage/persist.go,
`onDiskTable`): name, columns, rows and the indexed-column list; index
contents are never persisted. -/
structure DiskTable where
  name : String
  columns : List String
  rows : List Row
  indexedColumns : List String
deriving Repr, DecidableEq

/-- WAL record types (internal/storage/wal.go `WALEntryType`).  The
transaction record types are written by internal/storage/transaction.go;
their constant declarations are not among the provided sources, only their
call sites, so their presence is taken from the spec (§3 WAL entry). -/
inductive WalType where
  | createTable
  | insertRow
  | updateRow
  | deleteRow
  | dropTable
  | checkpoint
  | beginTransaction
  | rollbackTransaction
  | savepoint
  | rollbackToSavepoint
deriving Repr, DecidableEq

/-- A WAL record as written by `WALManager.WriteEntry` and
`WALManager.WriteCheckpoint`, with its type-specific payload.  Row indices
are logged only after the bounds check `0 <= i < len(rows)` in the caller,
so they are represented as `Nat`.  Timestamps are omitted (see the file
header). -/
inductive WalEntry where
  | createTable (table : String) (columns : List String)
  | insertRow (table : String) (values : List String)
  | updateRow (table : String) (rowIndex : Nat) (values : List String)
  | deleteRow (table : String) (rowIndex : Nat)
  | dropTable (table : String)
  | checkpoint
  | beginTransaction (isolationLevel : Nat)
  | rollbackTransaction (txID : String)
  | savepoint (txID : String) (name : String) (operationIndex : Nat)
  | rollbackToSavepoint (txID : String) (name : String) (operationIndex : Nat)
deriving Repr, DecidableEq

/-- Go `idx[val] = append(idx[val], ri)`: append a row position to the
bucket of value `v`, creating the bucket if absent. -/
def bucketAdd (b : Buckets) (v : String) (ri : Nat) : Buckets :=
  match b with
  | [] => [(v, [ri])]
  | (v0, ps) :: rest =>
      if v0 == v then (v0, ps ++ [ri]) :: rest else (v0, ps) :: bucketAdd rest v ri

/-- Scan loop of `buildIndexForColumn`: for each row position (counting from
`start`), if the row is long enough, add the position under the cell value. -/
def buildBuckets (rows : List Row) (ci : Nat) (start : Nat) (acc : Buckets) : Buckets :=
  match rows with
  | [] => acc
  | row :: rest =>
      let acc2 := match row.get? ci with
        | some v => bucketAdd acc v start
        | none => acc
      buildBuckets rest ci (start + 1) acc2

/-- `Database.buildIndexForColumn`: rebuild the index of one column from
scratch.  If the column is not in the schema the index is left reset (the
source resets the bucket map before the column check and returns early). -/
def buildIndexForColumn (t : Table) (c : String) : Table :=
  match t.columns.findIdx? (· == c) with
  | none => { t with indexes := insertA t.indexes c [] }
  | some ci => { t with indexes := insertA t.indexes c (buildBuckets t.rows ci 0 []) }

/-- `Database.rebuildAllIndexes`: rebuild every configured index. -/
def rebuildAllIndexes (t : Table) : Table :=
  t.indexedColumns.foldl buildIndexForColumn t

/-- Per-column step of `Database.applyIndexesOnInsert`. -/
def applyIndexOnInsertCol (row : Row) (rowIndex : Nat) (t : Table) (col : String) : Table :=
  match t.columns.findIdx? (· == col) with
  | none => t
  | some ci =>
      match row.get? ci with
      | none => t
      | some v =>
          let b := (lookupA t.indexes col).getD []
          { t with indexes := insertA t.indexes col (bucketAdd b v rowIndex) }

/-- `Database.applyIndexesOnInsert`: update indexes for a newly inserted row
at `rowIndex` (the caller always passes the position of the row it just
appended, so the lookup succeeds). -/
def applyIndexesOnInsert (t : Table) (rowIndex : Nat) : Table :=
  match t.rows.get? rowIndex with
  | none => t
  | some row => t.indexedColumns.foldl (applyIndexOnInsertCol row rowIndex) t

/-- Comparison operators of the predicate evaluator
(internal/parser/where.go `WhereOperator`). -/
inductive WhereOperator where
  | opEquals
  | opNotEquals
  | opLessThan
  | opGreaterThan
  | opLessThanOrEqual
  | opGreaterThanOrEqual
  | opLike
deriving Repr, DecidableEq

/-- One condition `column op value` (`WhereCondition`). -/
structure WhereCondition where
  column : String
  operator : WhereOperator
  value : String
deriving Repr, DecidableEq

/-- Parsed WHERE clause (`WhereExpression`).  `groups` is produced by the
parser but never consulted by the evaluator. -/
structure WhereExpression where
  conditions : List WhereCondition
  logicOps : List String
  groups : List Nat
deriving Repr, DecidableEq

/-- Anchored matcher for the regular expression that `evaluateLike` builds:
`regexp.QuoteMeta(pattern)` keeps `%` and `_` intact and neutralizes every
other character, the replacements turn `%` into `.*` and `_` into `.`, and
the result is wrapped in `^...$` and matched by Go's RE2 engine, where `.`
matches any character except newline.  Hence: `%` matches any run of
non-newline characters, `_` matches exactly one non-newline character, and
any other pattern character (newline included) matches itself literally.
The `.*` alternatives of the RE2 engine are denoted by an exhaustive
search over every split of the value (`splits cs` lists every
prefix/suffix decomposition of `cs`). -/
def splits : List Char → List (List Char × List Char)
  | [] => [([], [])]
  | c :: cs => ([], c :: cs) :: (splits cs).map (fun p => (c :: p.1, p.2))

/-- The anchored matcher itself; see `splits` for the reading of `%`. -/
def likeMatches : List Char → List Char → Bool
  | [], cs => cs.isEmpty
  | p :: ps2, cs =>
      if p = '%' then
        (splits cs).any (fun pr => pr.1.all (fun c => c != '\n') && likeMatches ps2 pr.2)
      else if p = '_' then
        match cs with
        | [] => false
        | c :: cs2 => (c != '\n') && likeMatches ps2 cs2
      else
        match cs with
        | [] => false
        | c :: cs2 => (p == c) && likeMatches ps2 cs2

/-- `evaluateLike` of internal/parser/where.go (argument order: value,
pattern), via the compiled-regex semantics captured by `likeMatches`. -/
def evaluateLike (value pattern : String) : Bool :=
  likeMatches pattern.toList value.toList

/-- Digit-string to number, for the decimal parser. -/
def digitsToNat (cs : List Char) : Nat :=
  cs.foldl (fun n c => n * 10 + (c.toNat - 48)) 0

/-- Model of `strconv.ParseFloat` restricted to plain decimal literals
`[+|-] digits [. digits]`, evaluated exactly over `Rat`.  Exponents, hex
floats, Inf/NaN, and float64 rounding are not modelled; no claim of this
development depends on the numeric comparison path. -/
def goParseFloat (s : String) : Option Rat :=
  let cs := s.toList
  let signed : Rat × List Char :=
    match cs with
    | '-' :: rest => (-1, rest)
    | '+' :: rest => (1, rest)
    | _ => (1, cs)
  let sign := signed.1
  let body := signed.2
  let intPart := body.takeWhile (· ≠ '.')
  let rest := body.drop intPart.length
  let fracPart : Option (List Char) :=
    match rest with
    | [] => some []
    | '.' :: fr => if fr.all (· ≠ '.') then some fr else none
    | _ => none
  match fracPart with
  | none => none
  | some fr =>
      if intPart.isEmpty && fr.isEmpty then none
      else if intPart.all Char.isDigit && fr.all Char.isDigit then
        some (sign * ((digitsToNat intPart : Rat) +
          (digitsToNat fr : Rat) / ((10 : Rat) ^ fr.length)))
      else none

/-- `evaluateNumericComparison`: numeric when both operands parse as
numbers, byte-wise lexicographic string comparison otherwise. -/
def evaluateNumericComparison (value compareValue : String) (operator : WhereOperator) :
    Except String Bool :=
  match goParseFloat value, goParseFloat compareValue with
  | some valNum, some compareNum =>
      match operator with
      | .opLessThan => .ok (decide (valNum < compareNum))
      | .opGreaterThan => .ok (decide (valNum > compareNum))
      | .opLessThanOrEqual => .ok (decide (valNum ≤ compareNum))
      | .opGreaterThanOrEqual => .ok (decide (valNum ≥ compareNum))
      | _ => .error "unsupported operator for comparison"
  | _, _ =>
      match operator with
      | .opLessThan => .ok (strLt value compareValue)
      | .opGreaterThan => .ok (strLt compareValue value)
      | .opLessThanOrEqual => .ok (strLe value compareValue)
      | .opGreaterThanOrEqual => .ok (strLe compareValue value)
      | _ => .error "unsupported operator for comparison"

/-- `WhereCondition.EvaluateCondition` against one row. -/
def EvaluateCondition (wc : WhereCondition) (row : Row)
    (columnIndexes : List (String × Nat)) : Except String Bool :=
  match lookupA columnIndexes wc.column with
  | none => .error s!"column {wc.column} not found"
  | some colIdx =>
      match row.get? colIdx with
      | none => .error "column index out of bounds"
      | some cellValue =>
          match wc.operator with
          | .opEquals => .ok (cellValue == wc.value)
          | .opNotEquals => .ok (cellValue != wc.value)
          | .opLike => .ok (evaluateLike cellValue wc.value)
          | op => evaluateNumericComparison cellValue wc.value op

/-- `WhereExpression.evaluateLogic`: strict left-to-right combination of the
condition results; parenthesis groups are ignored. -/
def evaluateLogic (logicOps : List String) (results : List Bool) : Bool :=
  match results with
  | [] => false
  | r0 :: rest => go r0 logicOps rest
where
  go (r : Bool) (ops : List String) (rs : List Bool) : Bool :=
    match ops, rs with
    | op :: ops2, r1 :: rs2 =>
        go (if op == "AND" then r && r1 else if op == "OR" then r || r1 else r) ops2 rs2
    | _, _ => r

/-- `WhereExpression.EvaluateExpression`. -/
def EvaluateExpression (we : WhereExpression) (row : Row)
    (columnIndexes : List (String × Nat)) : Except String Bool :=
  if we.conditions.isEmpty then .ok true
  else
    match we.conditions.mapM (fun c => EvaluateCondition c row columnIndexes) with
    | .error e => .error e
    | .ok results => .ok (evaluateLogic we.logicOps results)

/-- Dynamically-typed Go value as stored in an in-memory operation payload
(`map[string]interface{}`).  The distinction between `strList` (a Go
`[]string`) and `valList` (a Go `[]interface{}` of strings) matters:
`applyOperation` type-asserts payload fields to `[]interface{}` and
`float64`, which fails on the `[]string` and `int` values that the engine's
transactional wrappers store.  `num` is a `float64` holding an integer
value exactly (all row indices are far below 2^53).  Every `[]interface{}`
built by this code holds only strings (the elements are produced by
wrapping a `[]string`), so `valList` carries the strings directly; the
element assertions `col.(string)` in `applyOperation` therefore always
succeed once the list assertion has. -/
inductive GoVal where
  | str (s : String)
  | intV (i : Int)
  | num (i : Int)
  | strList (xs : List String)
  | valList (xs : List String)
deriving Repr, DecidableEq

/-- Transaction states (`TransactionState`). -/
inductive TxState where
  | active
  | committed
  | rolledBack
  | aborted
deriving Repr, DecidableEq

/-- One buffered operation (`TransactionOperation`); the timestamp is
omitted.  A Go `nil` payload is represented by the empty map. -/
structure TxOp where
  type : WalType
  tableName : String
  data : List (String × GoVal)
deriving Repr, DecidableEq

/-- A transaction (`Transaction`); start/end timestamps and the lock are
omitted (the lock is modelled where it changes behaviour, see
`CommitOutcome`). -/
structure Txn where
  id : String
  state : TxState
  isolationLevel : Nat
  operations : List TxOp
  savepoints : List (String × Nat)
deriving Repr, DecidableEq

/-- The engine state: `tables` is `Database.Tables`, `disk` the `.harudb`
files of the data directory, `wal` the records of `wal.log`, `txs` the
`TransactionManager.transactions` map with its `nextID` counter, and
`currentTransaction` the engine's single current-transaction slot (holding
the transaction id). -/
structure Database where
  tables : List (String × Table)
  disk : List (String × DiskTable)
  wal : List WalEntry
  txs : List (String × Txn)
  currentTransaction : Option String
  nextID : Nat
deriving Repr, DecidableEq

/-- The state of a freshly created empty data directory
(`NewDatabase` on an empty directory: nothing to load, nothing to replay). -/
def emptyDatabase : Database :=
  { tables := [], disk := [], wal := [], txs := [], currentTransaction := none, nextID := 1 }

/-- Serialization of a table for its `.harudb` file (persist.go
`onDiskTable`): index contents are dropped, `indexed_columns` kept. -/
def diskOfTable (t : Table) : DiskTable :=
  { name := t.name, columns := t.columns, rows := t.rows, indexedColumns := t.indexedColumns }

/-- `Database.saveTable`: atomically (temp file + rename) replace the
table's file.  In this crash-free model the write always succeeds. -/
def Database.saveTable (db : Database) (t : Table) : Database :=
  { db with disk := insertA db.disk (goToLower t.name) (diskOfTable t) }

/-- Append one record to the WAL (`WALManager.WriteEntry`, which fsyncs
before returning; appends always succeed in this model). -/
def Database.writeEntry (db : Database) (e : WalEntry) : Database :=
  { db with wal := db.wal ++ [e] }

/-- `Database.CreateTable` (non-transactional). -/
def Database.CreateTable (db : Database) (name0 : String) (columns : List String) :
    String × Database :=
  let name := goToLower name0
  match lookupA db.tables name with
  | some _ => (s!"Table {name} already exists", db)
  | none =>
      let db := db.writeEntry (.createTable name columns)
      let t : Table :=
        { name := name, columns := columns, rows := [], indexedColumns := [], indexes := [] }
      let db := { db with tables := insertA db.tables name t }
      let db := db.saveTable t
      let db := db.writeEntry .checkpoint
      (s!"Table {name} created", db)

/-- `Database.Insert` (non-transactional). -/
def Database.Insert (db : Database) (tableName0 : String) (values : List String) :
    String × Database :=
  let tableName := goToLower tableName0
  match lookupA db.tables tableName with
  | none => (s!"Table {tableName} not found", db)
  | some table =>
      if values.length ≠ table.columns.length then ("Column count does not match", db)
      else
        let db := db.writeEntry (.insertRow tableName values)
        let t1 := { table with rows := table.rows ++ [values] }
        let t2 := applyIndexesOnInsert t1 (t1.rows.length - 1)
        let db := { db with tables := insertA db.tables tableName t2 }
        let db := db.saveTable t2
        let db := db.writeEntry .checkpoint
        ("1 row inserted", db)

/-- `Database.Update` (non-transactional). -/
def Database.Update (db : Database) (tableName0 : String) (rowIndex : Int)
    (values : List String) : String × Database :=
  let tableName := goToLower tableName0
  match lookupA db.tables tableName with
  | none => (s!"Table {tableName} not found", db)
  | some table =>
      if rowIndex < 0 ∨ rowIndex ≥ (table.rows.length : Int) then
        ("Row index out of bounds", db)
      else if values.length ≠ table.columns.length then ("Column count does not match", db)
      else
        let db := db.writeEntry (.updateRow tableName rowIndex.toNat values)
        let t1 := { table with rows := table.rows.set rowIndex.toNat values }
        let t2 := rebuildAllIndexes t1
        let db := { db with tables := insertA db.tables tableName t2 }
        let db := db.saveTable t2
        let db := db.writeEntry .checkpoint
        ("1 row updated", db)

/-- `Database.Delete` (non-transactional). -/
def Database.Delete (db : Database) (tableName0 : String) (rowIndex : Int) :
    String × Database :=
  let tableName := goToLower tableName0
  match lookupA db.tables tableName with
  | none => (s!"Table {tableName} not found", db)
  | some table =>
      if rowIndex < 0 ∨ rowIndex ≥ (table.rows.length : Int) then
        ("Row index out of bounds", db)
      else
        let db := db.writeEntry (.deleteRow tableName rowIndex.toNat)
        let t1 := { table with rows := table.rows.eraseIdx rowIndex.toNat }
        let t2 := rebuildAllIndexes t1
        let db := { db with tables := insertA db.tables tableName t2 }
        let db := db.saveTable t2
        let db := db.writeEntry .checkpoint
        ("1 row deleted", db)

/-- `Database.DropTable` (non-transactional). -/
def Database.DropTable (db : Database) (tableName0 : String) : String × Database :=
  let tableName := goToLower tableName0
  match lookupA db.tables tableName with
  | none => (s!"Table {tableName} not found", db)
  | some _ =>
      let db := db.writeEntry (.dropTable tableName)
      let db := { db with tables := removeA db.tables tableName }
      let db := { db with disk := removeA db.disk tableName }
      let db := db.writeEntry .checkpoint
      (s!"Table {tableName} dropped", db)

/-- `Database.CreateIndex`: installs the indexed column and builds its
index by a full scan, then persists the table metadata.  Note that no WAL
record and no checkpoint are written by this operation. -/
def Database.CreateIndex (db : Database) (tableName0 columnName0 : String) :
    String × Database :=
  let tableName := goToLower tableName0
  let columnName := goTrim columnName0
  match lookupA db.tables tableName with
  | none => (s!"Table {tableName} not found", db)
  | some table =>
      match table.columns.findIdx? (· == columnName) with
      | none => (s!"Column {columnName} not found", db)
      | some _ =>
          let t1 :=
            if table.indexedColumns.contains columnName then table
            else { table with indexedColumns := table.indexedColumns ++ [columnName] }
          let t2 := buildIndexForColumn t1 columnName
          let db := { db with tables := insertA db.tables tableName t2 }
          let db := db.saveTable t2
          (s!"Index created on {tableName}({columnName})", db)

/-- Render one row line of a result. -/
def rowLine (r : Row) : String := String.intercalate " | " r ++ "\n"

/-- `Database.SelectAll`. -/
def Database.SelectAll (db : Database) (tableName0 : String) : String :=
  let tableName := goToLower tableName0
  match lookupA db.tables tableName with
  | none => s!"Table {tableName} not found"
  | some table =>
      let header := String.intercalate " | " table.columns ++ "\n"
      let body := String.join (table.rows.map rowLine)
      header ++ body ++ (if table.rows.isEmpty then "(no rows)\n" else "")

/-- `Database.SelectWhere`: equality select that serves from the hash index
when the column has one and falls back to a full scan otherwise. -/
def Database.SelectWhere (db : Database) (tableName0 columnName value : String) : String :=
  let tableName := goToLower tableName0
  match lookupA db.tables tableName with
  | none => s!"Table {tableName} not found"
  | some table =>
      let header := String.intercalate " | " table.columns ++ "\n"
      match lookupA table.indexes columnName with
      | some idxMap =>
          match lookupA idxMap value with
          | some rowIdxs =>
              let body :=
                String.join (rowIdxs.filterMap (fun ri => (table.rows.get? ri).map rowLine))
              header ++ body ++ (if rowIdxs.isEmpty then "(no rows)\n" else "")
          | none => header ++ "(no rows)\n"
      | none =>
          match table.columns.findIdx? (· == columnName) with
          | none => s!"Column {columnName} not found"
          | some colIdx =>
              let matched := table.rows.filter (fun row => row.get? colIdx == some value)
              header ++ String.join (matched.map rowLine) ++
                (if matched.isEmpty then "(no rows)\n" else "")

/-- The `columnIndexes` map of `SelectWhereAdvanced`: column name to its
position, later occurrences overwriting earlier ones. -/
def buildColumnIndexes (cols : List String) : List (String × Nat) :=
  (List.range cols.length).foldl (fun acc i => insertA acc (cols.getD i "") i) []

/-- `Database.SelectWhereAdvanced`: full scan through the general
expression evaluator. -/
def Database.SelectWhereAdvanced (db : Database) (tableName0 : String)
    (whereExpr : WhereExpression) : String :=
  let tableName := goToLower tableName0
  match lookupA db.tables tableName with
  | none => s!"Table {tableName} not found"
  | some table =>
      let columnIndexes := buildColumnIndexes table.columns
      let header := String.intercalate " | " table.columns ++ "\n"
      match table.rows.mapM (fun row => EvaluateExpression whereExpr row columnIndexes) with
      | .error e => s!"Error evaluating WHERE condition: {e}"
      | .ok flags =>
          let matched := (table.rows.zip flags).filterMap
            (fun p => if p.2 then some p.1 else none)
          header ++ String.join (matched.map rowLine) ++
            (if matched.isEmpty then "(no rows)\n" else "")

/-- The `SELECT * FROM <t> WHERE <expr>` branch of `Engine.Execute`
(internal/parser/engine.go): after a WHERE clause parses successfully the
engine always answers it through `SelectWhereAdvanced`. -/
def executeSelectWhere (db : Database) (tableName : String)
    (whereExpr : WhereExpression) : String :=
  db.SelectWhereAdvanced (goToLower tableName) whereExpr

/-- `TransactionManager.BeginTransaction`: always creates and registers a
fresh Active transaction (the Go transaction id embeds a wall-clock
timestamp and the monotone counter; the model keeps only the counter) and
logs a BEGIN record.  The only Go failure branch is a failing WAL write,
which does not occur in this model. -/
def TM.BeginTransaction (db : Database) (isolationLevel : Nat) : Txn × Database :=
  let txID := "tx_" ++ toString db.nextID
  let tx : Txn :=
    { id := txID, state := .active, isolationLevel := isolationLevel,
      operations := [], savepoints := [] }
  let db := { db with nextID := db.nextID + 1, txs := insertA db.txs txID tx }
  let db := db.writeEntry (.beginTransaction isolationLevel)
  (tx, db)

/-- The payload normalization `AddOperation` performs for UPDATE operations
only: `row_index` from `int` to `float64` and `values` from `[]string` to
`[]interface{}`. -/
def normalizeUpdateData (data : List (String × GoVal)) : List (String × GoVal) :=
  let d1 : List (String × GoVal) :=
    match lookupA data "row_index" with
    | some (.intV i) => insertA data "row_index" (.num i)
    | _ => data
  match lookupA d1 "values" with
  | some (.strList xs) => insertA d1 "values" (.valList xs)
  | _ => d1

/-- `TransactionManager.AddOperation`: append a typed operation record to
an active transaction's buffer.  Only UPDATE payloads are normalized. -/
def TM.AddOperation (db : Database) (txID : String) (opType : WalType)
    (tableName : String) (data : List (String × GoVal)) : Except String Database :=
  match lookupA db.txs txID with
  | none => .error s!"transaction {txID} not found"
  | some tx =>
      if tx.state != .active then .error s!"transaction {txID} is not active"
      else
        let data2 := if opType == .updateRow then normalizeUpdateData data else data
        let op : TxOp := { type := opType, tableName := tableName, data := data2 }
        let tx2 := { tx with operations := tx.operations ++ [op] }
        .ok { db with txs := insertA db.txs txID tx2 }

/-- `TransactionManager.CreateSavepoint`: record the current buffer length
under the savepoint name and log it. -/
def TM.CreateSavepoint (db : Database) (txID savepointName : String) :
    Except String Database :=
  match lookupA db.txs txID with
  | none => .error s!"transaction {txID} not found"
  | some tx =>
      if tx.state != .active then .error s!"transaction {txID} is not active"
      else
        let tx2 := { tx with savepoints := insertA tx.savepoints savepointName tx.operations.length }
        let db := { db with txs := insertA db.txs txID tx2 }
        let db := db.writeEntry (.savepoint txID savepointName tx.operations.length)
        .ok db

/-- `TransactionManager.RollbackToSavepoint`: truncate the buffer back to
the recorded length; the savepoint entry itself is kept. -/
def TM.RollbackToSavepoint (db : Database) (txID savepointName : String) :
    Except String Database :=
  match lookupA db.txs txID with
  | none => .error s!"transaction {txID} not found"
  | some tx =>
      if tx.state != .active then .error s!"transaction {txID} is not active"
      else
        match lookupA tx.savepoints savepointName with
        | none => .error s!"savepoint {savepointName} not found"
        | some operationIndex =>
            let tx2 := { tx with operations := tx.operations.take operationIndex }
            let db := { db with txs := insertA db.txs txID tx2 }
            let db := db.writeEntry (.rollbackToSavepoint txID savepointName operationIndex)
            .ok db

/-- `TransactionManager.rollbackTransactionUnsafe` as observable when the
transaction lock is free: log a ROLLBACK record and drop the transaction
from the manager (its RolledBack state is set on the object that is then
deleted from the map). -/
def TM.rollbackTransactionUnsafe (db : Database) (tx : Txn) : Except String Database :=
  if tx.state != .active then .error s!"transaction {tx.id} is not active"
  else
    let db := db.writeEntry (.rollbackTransaction tx.id)
    .ok { db with txs := removeA db.txs tx.id }

/-- `TransactionManager.RollbackTransaction`. -/
def TM.RollbackTransaction (db : Database) (txID : String) : Except String Database :=
  match lookupA db.txs txID with
  | none => .error s!"transaction {txID} not found"
  | some tx => TM.rollbackTransactionUnsafe db tx

/-- `TransactionManager.applyCreateTable`. -/
def TM.applyCreateTable (db : Database) (tableName : String) (columns : List String) :
    Except String Database :=
  match lookupA db.tables tableName with
  | some _ => .error s!"table {tableName} already exists"
  | none =>
      let t : Table :=
        { name := tableName, columns := columns, rows := [], indexedColumns := [],
          indexes := [] }
      let db := { db with tables := insertA db.tables tableName t }
      .ok (db.saveTable t)

/-- `TransactionManager.applyInsert`.  Note: unlike `Database.Insert`, no
WAL record and no checkpoint are written. -/
def TM.applyInsert (db : Database) (tableName : String) (values : List String) :
    Except String Database :=
  match lookupA db.tables tableName with
  | none => .error s!"table {tableName} not found"
  | some table =>
      if values.length ≠ table.columns.length then .error "column count mismatch"
      else
        let t1 := { table with rows := table.rows ++ [values] }
        let t2 := applyIndexesOnInsert t1 (t1.rows.length - 1)
        let db := { db with tables := insertA db.tables tableName t2 }
        .ok (db.saveTable t2)

/-- `TransactionManager.applyUpdate`. -/
def TM.applyUpdate (db : Database) (tableName : String) (rowIndex : Int)
    (values : List String) : Except String Database :=
  match lookupA db.tables tableName with
  | none => .error s!"table {tableName} not found"
  | some table =>
      if rowIndex < 0 ∨ rowIndex ≥ (table.rows.length : Int) then
        .error s!"row index {rowIndex} out of bounds (table has {table.rows.length} rows)"
      else if values.length ≠ table.columns.length then
        .error s!"column count mismatch: expected {table.columns.length}, got {values.length}"
      else
        let t1 := { table with rows := table.rows.set rowIndex.toNat values }
        let t2 := rebuildAllIndexes t1
        let db := { db with tables := insertA db.tables tableName t2 }
        .ok (db.saveTable t2)

/-- `TransactionManager.applyDelete`. -/
def TM.applyDelete (db : Database) (tableName : String) (rowIndex : Int) :
    Except String Database :=
  match lookupA db.tables tableName with
  | none => .error s!"table {tableName} not found"
  | some table =>
      if rowIndex < 0 ∨ rowIndex ≥ (table.rows.length : Int) then
        .error "row index out of bounds"
      else
        let t1 := { table with rows := table.rows.eraseIdx rowIndex.toNat }
        let t2 := rebuildAllIndexes t1
        let db := { db with tables := insertA db.tables tableName t2 }
        .ok (db.saveTable t2)

/-- `TransactionManager.applyDropTable`: removes the table from memory only
(no WAL record, and the table file is not unlinked on this path). -/
def TM.applyDropTable (db : Database) (tableName : String) : Except String Database :=
  match lookupA db.tables tableName with
  | none => .error s!"table {tableName} not found"
  | some _ => .ok { db with tables := removeA db.tables tableName }

/-- `TransactionManager.applyOperation`: dispatch one buffered operation.
The payload field assertions mirror the Go type assertions: a `[]string`
where `[]interface{}` is expected, or an `int` where `float64` is
expected, makes the operation fail with the corresponding
"invalid ... operation data" error. -/
def TM.applyOperation (db : Database) (op : TxOp) : Except String Database :=
  match op.type with
  | .createTable =>
      match lookupA op.data "columns" with
      | some (.valList cols) => TM.applyCreateTable db op.tableName cols
      | _ => .error "invalid CREATE TABLE operation data"
  | .insertRow =>
      match lookupA op.data "values" with
      | some (.valList vals) => TM.applyInsert db op.tableName vals
      | _ => .error "invalid INSERT operation data"
  | .updateRow =>
      match lookupA op.data "row_index", lookupA op.data "values" with
      | some (.num ri), some (.valList vals) => TM.applyUpdate db op.tableName ri vals
      | _, _ => .error "invalid UPDATE operation data"
  | .deleteRow =>
      match lookupA op.data "row_index" with
      | some (.num ri) => TM.applyDelete db op.tableName ri
      | _ => .error "invalid DELETE operation data"
  | .dropTable => TM.applyDropTable db op.tableName
  | _ => .error "unsupported operation type"

/-- Result of `CommitTransaction`.  `stuck` is the observable outcome of
the mid-commit failure path: `CommitTransaction` still holds `tx.mu`
(acquired at its step 2 and released only by its deferred unlock) when it
calls `rollbackTransactionUnsafe`, whose first action is `tx.mu.Lock()`;
Go's `sync.Mutex` is not reentrant, so the call blocks forever and
`CommitTransaction` never returns.  The state recorded in `stuck` is the
state at the moment of blocking: operations before the failing one are
applied, the transaction is still registered and Active, and no error is
ever returned to the caller. -/
inductive CommitOutcome where
  | ok (db : Database)
  | err (msg : String) (db : Database)
  | stuck (db : Database)
deriving Repr, DecidableEq

/-- The commit loop: apply buffered operations in order, stopping at the
first failure. -/
def TM.applyOps (db : Database) (ops : List TxOp) : Database × Option String :=
  match ops with
  | [] => (db, none)
  | op :: rest =>
      match TM.applyOperation db op with
      | .ok db2 => TM.applyOps db2 rest
      | .error e => (db, some e)

/-- `TransactionManager.CommitTransaction`.  On success the transaction is
marked Committed and removed from the manager; on a mid-commit operation
failure the call deadlocks (see `CommitOutcome.stuck`). -/
def TM.CommitTransaction (db : Database) (txID : String) : CommitOutcome :=
  match lookupA db.txs txID with
  | none => .err s!"transaction {txID} not found" db
  | some tx =>
      if tx.state != .active then .err s!"transaction {txID} is not active" db
      else
        match TM.applyOps db tx.operations with
        | (db2, some _) => .stuck db2
        | (db2, none) => .ok { db2 with txs := removeA db2.txs txID }

/-- `Database.BeginTransaction` (engine wrapper): starts a transaction and
overwrites the single current-transaction slot with it. -/
def Database.BeginTransaction (db : Database) (isolationLevel : Nat) : Txn × Database :=
  let p := TM.BeginTransaction db isolationLevel
  (p.1, { p.2 with currentTransaction := some p.1.id })

/-- `Database.CommitTransaction` (engine wrapper): commits the current
transaction; the slot is cleared only when the commit returns nil. -/
def Database.CommitTransaction (db : Database) : CommitOutcome :=
  match db.currentTransaction with
  | none => .err "no active transaction" db
  | some txID =>
      match TM.CommitTransaction db txID with
      | .ok db2 => .ok { db2 with currentTransaction := none }
      | .err e db2 => .err e db2
      | .stuck db2 => .stuck db2

/-- `Database.RollbackTransaction` (engine wrapper). -/
def Database.RollbackTransaction (db : Database) : Except String Database :=
  match db.currentTransaction with
  | none => .error "no active transaction"
  | some txID =>
      match TM.RollbackTransaction db txID with
      | .ok db2 => .ok { db2 with currentTransaction := none }
      | .error e => .error e

/-- `Database.CreateSavepoint` (engine wrapper). -/
def Database.CreateSavepoint (db : Database) (name : String) : Except String Database :=
  match db.currentTransaction with
  | none => .error "no active transaction"
  | some txID => TM.CreateSavepoint db txID name

/-- `Database.RollbackToSavepoint` (engine wrapper). -/
def Database.RollbackToSavepoint (db : Database) (name : String) : Except String Database :=
  match db.currentTransaction with
  | none => .error "no active transaction"
  | some txID => TM.RollbackToSavepoint db txID name

/-- `Database.CreateTableTx`. -/
def Database.CreateTableTx (db : Database) (name0 : String) (columns : List String) :
    String × Database :=
  let name := goToLower name0
  match lookupA db.tables name with
  | some _ => (s!"Table {name} already exists", db)
  | none =>
      match db.currentTransaction with
      | some txID =>
          match TM.AddOperation db txID .createTable name [("columns", .strList columns)] with
          | .ok db2 => (s!"Table {name} creation queued in transaction", db2)
          | .error e => (s!"Failed to add operation to transaction: {e}", db)
      | none => db.CreateTable name columns

/-- `Database.InsertTx`. -/
def Database.InsertTx (db : Database) (tableName0 : String) (values : List String) :
    String × Database :=
  let tableName := goToLower tableName0
  match lookupA db.tables tableName with
  | none => (s!"Table {tableName} not found", db)
  | some table =>
      if values.length ≠ table.columns.length then ("Column count does not match", db)
      else
        match db.currentTransaction with
        | some txID =>
            match TM.AddOperation db txID .insertRow tableName
                [("values", .strList values)] with
            | .ok db2 => ("1 row insert queued in transaction", db2)
            | .error e => (s!"Failed to add operation to transaction: {e}", db)
        | none => db.Insert tableName values

/-- `Database.UpdateTx`. -/
def Database.UpdateTx (db : Database) (tableName0 : String) (rowIndex : Int)
    (values : List String) : String × Database :=
  let tableName := goToLower tableName0
  match lookupA db.tables tableName with
  | none => (s!"Table {tableName} not found", db)
  | some table =>
      if rowIndex < 0 ∨ rowIndex ≥ (table.rows.length : Int) then
        ("Row index out of bounds", db)
      else if values.length ≠ table.columns.length then ("Column count does not match", db)
      else
        match db.currentTransaction with
        | some txID =>
            match TM.AddOperation db txID .updateRow tableName
                [("row_index", .intV rowIndex), ("values", .strList values)] with
            | .ok db2 => ("1 row update queued in transaction", db2)
            | .error e => (s!"Failed to add operation to transaction: {e}", db)
        | none => db.Update tableName rowIndex values

/-- `Database.DeleteTx`. -/
def Database.DeleteTx (db : Database) (tableName0 : String) (rowIndex : Int) :
    String × Database :=
  let tableName := goToLower tableName0
  match lookupA db.tables tableName with
  | none => (s!"Table {tableName} not found", db)
  | some table =>
      if rowIndex < 0 ∨ rowIndex ≥ (table.rows.length : Int) then
        ("Row index out of bounds", db)
      else
        match db.currentTransaction with
        | some txID =>
            match TM.AddOperation db txID .deleteRow tableName
                [("row_index", .intV rowIndex)] with
            | .ok db2 => ("1 row delete queued in transaction", db2)
            | .error e => (s!"Failed to add operation to transaction: {e}", db)
        | none => db.Delete tableName rowIndex

/-- `Database.DropTableTx`. -/
def Database.DropTableTx (db : Database) (tableName0 : String) : String × Database :=
  let tableName := goToLower tableName0
  match lookupA db.tables tableName with
  | none => (s!"Table {tableName} not found", db)
  | some _ =>
      match db.currentTransaction with
      | some txID =>
          match TM.AddOperation db txID .dropTable tableName [] with
          | .ok db2 => (s!"Table {tableName} drop queued in transaction", db2)
          | .error e => (s!"Failed to add operation to transaction: {e}", db)
      | none => db.DropTable tableName

/-- One transactional engine call, for reasoning about call sequences. -/
inductive EngCall where
  | createTableTx (name : String) (columns : List String)
  | insertTx (table : String) (values : List String)
  | updateTx (table : String) (rowIndex : Int) (values : List String)
  | deleteTx (table : String) (rowIndex : Int)
  | dropTableTx (table : String)
deriving Repr, DecidableEq

/-- Dispatch one `EngCall` to the corresponding engine method. -/
def runCall (db : Database) (c : EngCall) : String × Database :=
  match c with
  | .createTableTx n cols => db.CreateTableTx n cols
  | .insertTx t vs => db.InsertTx t vs
  | .updateTx t i vs => db.UpdateTx t i vs
  | .deleteTx t i => db.DeleteTx t i
  | .dropTableTx t => db.DropTableTx t

/-- Run a sequence of engine calls, keeping only the state. -/
def runCalls (db : Database) (cs : List EngCall) : Database :=
  cs.foldl (fun d c => (runCall d c).2) db

/-- `WALManager.replayEntry`: reapply a single WAL record to the state.
The CREATE_TABLE case installs a fresh table with nil `IndexedColumns` and
nil `Indexes`; the INSERT case appends without an arity check and without
index maintenance; UPDATE and DELETE are silently skipped when the logged
index is out of bounds; the transaction envelope records have no case in
the switch and are ignored; CHECKPOINT only moves the in-memory watermark
(which nothing reads, since the skip-before-checkpoint branch of
`ReplayWAL` is commented out in the source). -/
def WM.replayEntry (db : Database) (e : WalEntry) : Database :=
  match e with
  | .createTable table columns =>
      let t : Table :=
        { name := table, columns := columns, rows := [], indexedColumns := [], indexes := [] }
      let db := { db with tables := insertA db.tables table t }
      db.saveTable t
  | .insertRow table values =>
      match lookupA db.tables table with
      | some t =>
          let t2 := { t with rows := t.rows ++ [values] }
          let db := { db with tables := insertA db.tables table t2 }
          db.saveTable t2
      | none => db
  | .updateRow table ri values =>
      match lookupA db.tables table with
      | some t =>
          if ri < t.rows.length then
            let t2 := { t with rows := t.rows.set ri values }
            ({ db with tables := insertA db.tables table t2 }).saveTable t2
          else db
      | none => db
  | .deleteRow table ri =>
      match lookupA db.tables table with
      | some t =>
          if ri < t.rows.length then
            let t2 := { t with rows := t.rows.eraseIdx ri }
            ({ db with tables := insertA db.tables table t2 }).saveTable t2
          else db
      | none => db
  | .dropTable table =>
      { db with tables := removeA db.tables table, disk := removeA db.disk table }
  | _ => db

/-- The record loop of `WALManager.ReplayWAL` at the record level: every
record of the log is replayed from the first to the last — the branch that
would skip records before the last checkpoint is commented out in the
source ("For now, replay all entries"). -/
def WM.ReplayWAL (db : Database) (entries : List WalEntry) : Database :=
  entries.foldl WM.replayEntry db

/-- Load one `.harudb` file (persist.go `loadTables` body): indexes are
reconstructed from `indexed_columns` by a full scan. -/
def loadTable (dt : DiskTable) : Table :=
  rebuildAllIndexes
    { name := dt.name, columns := dt.columns, rows := dt.rows,
      indexedColumns := dt.indexedColumns, indexes := [] }

/-- `NewDatabase` on an existing data directory: load every table file,
then replay the whole WAL.  The key under which a loaded table is stored
is the lowercased name recorded in the file when non-empty, else the file
name; engine-written files always agree with their key. -/
def startupFrom (disk : List (String × DiskTable)) (wal : List WalEntry) : Database :=
  let db0 : Database :=
    { tables := [], disk := disk, wal := wal, txs := [],
      currentTransaction := none, nextID := 1 }
  let db1 := disk.foldl
    (fun d p =>
      let name := if p.2.name ≠ "" then goToLower p.2.name else p.1
      { d with tables := insertA d.tables name (loadTable p.2) })
    db0
  WM.ReplayWAL db1 wal

/-- Little-endian 4-byte encoding of `uint32(n)` (the record length prefix
written by `WriteEntry`); symbols stand for bytes. -/
def le32 (n : Nat) : List Nat :=
  [n % 256, n / 256 % 256, n / 65536 % 256, n / 16777216 % 256]

/-- Little-endian read of a 4-byte length prefix. -/
def de32 (b0 b1 b2 b3 : Nat) : Nat :=
  b0 + 256 * b1 + 65536 * b2 + 16777216 * b3

/-- Serialized number field inside a record payload. -/
def encNum (n : Nat) : List Nat := le32 n

/-- Serialized string field: length then one symbol per character.  The
source serializes records as JSON; this development keeps the payload
codec abstract but self-describing, with the property the torn-tail
behaviour depends on: a complete payload deserializes to its record, and
the zero-padded truncations used in the theorems fail to deserialize, as a
truncated JSON object does. -/
def encText (s : String) : List Nat :=
  encNum s.toList.length ++ s.toList.map Char.toNat

/-- Serialized string-list field: count then the strings. -/
def encTexts (xs : List String) : List Nat :=
  encNum xs.length ++ (xs.map encText).flatten

/-- Read a 4-byte number field. -/
def readNum (bs : List Nat) : Option (Nat × List Nat) :=
  match bs with
  | b0 :: b1 :: b2 :: b3 :: rest => some (de32 b0 b1 b2 b3, rest)
  | _ => none

/-- Read a string field. -/
def readText (bs : List Nat) : Option (String × List Nat) :=
  match readNum bs with
  | some (n, rest) =>
      if rest.length < n then none
      else some (String.mk ((rest.take n).map Char.ofNat), rest.drop n)
  | none => none

/-- Read `k` consecutive string fields. -/
def readTexts (k : Nat) (bs : List Nat) : Option (List String × List Nat) :=
  match k with
  | 0 => some ([], bs)
  | k + 1 =>
      match readText bs with
      | some (s, rest) =>
          match readTexts k rest with
          | some (ss, rest2) => some (s :: ss, rest2)
          | none => none
      | none => none

/-- Read a string-list field. -/
def readTextList (bs : List Nat) : Option (List String × List Nat) :=
  match readNum bs with
  | some (k, rest) => readTexts k rest
  | none => none

/-- Payload serialization of one WAL record (see `encText` on the codec
abstraction). -/
def encodeEntryPayload (e : WalEntry) : List Nat :=
  match e with
  | .createTable t cols => 1 :: (encText t ++ encTexts cols)
  | .insertRow t vs => 2 :: (encText t ++ encTexts vs)
  | .updateRow t ri vs => 3 :: (encText t ++ encNum ri ++ encTexts vs)
  | .deleteRow t ri => 4 :: (encText t ++ encNum ri)
  | .dropTable t => 5 :: encText t
  | .checkpoint => [6]
  | .beginTransaction iso => 7 :: encNum iso
  | .rollbackTransaction txid => 8 :: encText txid
  | .savepoint txid n i => 9 :: (encText txid ++ encText n ++ encNum i)
  | .rollbackToSavepoint txid n i => 10 :: (encText txid ++ encText n ++ encNum i)

/-- Payload deserialization: succeeds only on a complete, exactly-consumed
payload. -/
def decodeEntryPayload (bs : List Nat) : Option WalEntry :=
  match bs with
  | 1 :: rest =>
      match readText rest with
      | some (t, r1) =>
          match readTextList r1 with
          | some (cols, []) => some (.createTable t cols)
          | _ => none
      | none => none
  | 2 :: rest =>
      match readText rest with
      | some (t, r1) =>
          match readTextList r1 with
          | some (vs, []) => some (.insertRow t vs)
          | _ => none
      | none => none
  | 3 :: rest =>
      match readText rest with
      | some (t, r1) =>
          match readNum r1 with
          | some (ri, r2) =>
              match readTextList r2 with
              | some (vs, []) => some (.updateRow t ri vs)
              | _ => none
          | none => none
      | none => none
  | 4 :: rest =>
      match readText rest with
      | some (t, r1) =>
          match readNum r1 with
          | some (ri, []) => some (.deleteRow t ri)
          | _ => none
      | none => none
  | 5 :: rest =>
      match readText rest with
      | some (t, []) => some (.dropTable t)
      | _ => none
  | [6] => some .checkpoint
  | 7 :: rest =>
      match readNum rest with
      | some (iso, []) => some (.beginTransaction iso)
      | _ => none
  | 8 :: rest =>
      match readText rest with
      | some (txid, []) => some (.rollbackTransaction txid)
      | _ => none
  | 9 :: rest =>
      match readText rest with
      | some (txid, r1) =>
          match readText r1 with
          | some (n, r2) =>
              match readNum r2 with
              | some (i, []) => some (.savepoint txid n i)
              | _ => none
          | none => none
      | none => none
  | 10 :: rest =>
      match readText rest with
      | some (txid, r1) =>
          match readText r1 with
          | some (n, r2) =>
              match readNum r2 with
              | some (i, []) => some (.rollbackToSavepoint txid n i)
              | _ => none
          | none => none
      | none => none
  | _ => none

/-- One framed record: 4-byte little-endian payload length, then the
payload. -/
def encodeFrame (e : WalEntry) : List Nat :=
  le32 (encodeEntryPayload e).length ++ encodeEntryPayload e

/-- The bytes of a `wal.log` holding the given records. -/
def encodeWalFile (es : List WalEntry) : List Nat :=
  (es.map encodeFrame).flatten

/-- Byte-level record loop of `WALManager.ReplayWAL` over the
`bufio.Reader` with its default 4096-byte buffer.  `buffered` counts how
many of the upcoming bytes already sit in the reader's buffer (0 when the
file is opened); the buffer always holds a prefix of the unconsumed
stream, and one underlying read of a regular file returns everything
asked for that the file still has.

The 4-byte length prefix is read with `binary.Read` (`io.ReadFull`, which
loops over reads and refills): an empty remainder is the clean `EOF`
stop; one to three remaining bytes yield `unexpected EOF`, which is not
the bare `EOF` the loop breaks on, so `ReplayWAL` returns an error.
Reading the prefix leaves `buffered - 4` bytes buffered, or — when the
buffer ran out and one refill pulled `min 4096 (left - buffered)` more
bytes — what remains of that refill.

The payload is read with a SINGLE `reader.Read` into a zero-initialized
buffer of the prefixed length `n`.  A read of length 0 is a no-op without
error; if the buffer is non-empty the read returns only the buffered
bytes (short when fewer than `n` are buffered — this happens on clean
files whose payload straddles a refill boundary); if the buffer is empty
the read goes to the file (directly for `n ≥ 4096`, through one buffer
refill below that), and on an exhausted file that read reports `EOF`,
which the source wraps as `failed to read WAL entry data`.  A short read
leaves a zero-padded truncation that fails to unmarshal, so `ReplayWAL`
returns an error.  In every case the entries already replayed stay
applied. -/
def WM.replayBytes (db : Database) (bytes : List Nat) (buffered : Nat) :
    Database × Option String :=
  match bytes with
  | [] => (db, none)
  | b0 :: b1 :: b2 :: b3 :: rest =>
      let n := de32 b0 b1 b2 b3
      let buf1 :=
        if 4 ≤ buffered then buffered - 4
        else min 4096 (rest.length + 4 - buffered) - (4 - buffered)
      if 0 < buf1 ∨ n = 0 then
        let k := min n buf1
        let jsonData := rest.take k ++ List.replicate (n - k) 0
        match decodeEntryPayload jsonData with
        | some e => WM.replayBytes (WM.replayEntry db e) (rest.drop k) (buf1 - k)
        | none => (db, some "failed to unmarshal WAL entry")
      else if rest.isEmpty then (db, some "failed to read WAL entry data: EOF")
      else
        let m := if 4096 ≤ n then min n rest.length else min 4096 rest.length
        let k := min n m
        let jsonData := rest.take k ++ List.replicate (n - k) 0
        match decodeEntryPayload jsonData with
        | some e => WM.replayBytes (WM.replayEntry db e) (rest.drop k) (m - k)
        | none => (db, some "failed to unmarshal WAL entry")
  | _ => (db, some "failed to read WAL entry length: unexpected EOF")
termination_by bytes.length
decreasing_by
  all_goals simp only [List.length_drop, List.length_cons]
  all_goals omega

/-- A record big enough that its frame nearly fills the reader's first
4096-byte window, leaving 5 buffered bytes for the next record — whose
10-byte payload then gets a short read. -/
def straddleEntry : WalEntry :=
  .insertRow "t" [String.mk (List.replicate 4073 'x')]

/-- Declarative reading of the LIKE semantics that `evaluateLike` actually
implements (written from the amended claim, to be compared with the
source-derived matcher): the pattern must cover the whole value, `%`
stands for any — possibly empty — run of non-newline characters, `_` for
exactly one non-newline character, and any other pattern character for
itself. -/
inductive Matches : List Char → List Char → Prop where
  | nil : Matches [] []
  | pct (ps : List Char) (pre post : List Char) (hpre : ∀ c ∈ pre, c ≠ '\n')
      (h : Matches ps post) : Matches ('%' :: ps) (pre ++ post)
  | one (ps : List Char) (c : Char) (cs : List Char) (hc : c ≠ '\n')
      (h : Matches ps cs) : Matches ('_' :: ps) (c :: cs)
  | lit (p : Char) (ps : List Char) (cs : List Char) (hp1 : p ≠ '%') (hp2 : p ≠ '_')
      (h : Matches ps cs) : Matches (p :: ps) (p :: cs)

/-- Keep the previous state when an engine call reports an error (used to
write down concrete call sequences). -/
def orKeep (db : Database) (r : Except String Database) : Database :=
  match r with
  | .ok d => d
  | .error _ => db

/-- Whether a commit outcome is the mid-commit deadlock. -/
def commitIsStuck : CommitOutcome → Bool
  | .stuck _ => true
  | _ => false

/-- The state carried by a commit outcome. -/
def commitState : CommitOutcome → Database
  | .ok d => d
  | .err _ d => d
  | .stuck d => d

/-- Scenario state: one table `t(a)` with one row, an index on `a`
(engine at rest, WAL ended by the CHECKPOINT of the insert). -/
def restartPre : Database :=
  (((emptyDatabase.CreateTable "t" ["a"]).2.Insert "t" ["x"]).2.CreateIndex "t" "a").2

/-- Scenario state: the engine restarted on the same data directory. -/
def restartPost : Database :=
  startupFrom restartPre.disk restartPre.wal

/-- Scenario: `BEGIN; INSERT '1'; SAVEPOINT s; INSERT '2';
ROLLBACK TO SAVEPOINT s` on table `t(id)`, all through the engine's
transactional wrappers. -/
def svpS0 : Database := (emptyDatabase.CreateTable "t" ["id"]).2

def svpS1 : Database := (svpS0.BeginTransaction 1).2

def svpS2 : Database := (svpS1.InsertTx "t" ["1"]).2

def svpS3 : Database := orKeep svpS2 (svpS2.CreateSavepoint "s")

def svpS4 : Database := (svpS3.InsertTx "t" ["2"]).2

def svpS5 : Database := orKeep svpS4 (svpS4.RollbackToSavepoint "s")

/-- Scenario: table `t(id)` with rows `a`, `b`; a transaction buffers
`UpdateTx t 0 [x]` (a payload the commit path can apply) and then
`DeleteTx t 1` (whose `int` payload the commit path rejects). -/
def midS0 : Database :=
  (((emptyDatabase.CreateTable "t" ["id"]).2.Insert "t" ["a"]).2.Insert "t" ["b"]).2

def midS1 : Database := (midS0.BeginTransaction 1).2

def midS2 : Database := (midS1.UpdateTx "t" 0 ["x"]).2

def midS3 : Database := (midS2.DeleteTx "t" 1).2

/-- Whether a commit outcome is a successful return. -/
def commitIsOk : CommitOutcome → Bool
  | .ok _ => true
  | _ => false

/-- Does a WAL record describe an UPDATE mutation? -/
def isUpdateRecord : WalEntry → Bool
  | .updateRow _ _ _ => true
  | _ => false

/-- Scenario: table `t(id)` with one row `a`; a transaction buffers
`UpdateTx t 0 [b]` and commits. -/
def updTxS0 : Database :=
  ((emptyDatabase.CreateTable "t" ["id"]).2.Insert "t" ["a"]).2

def updTxS1 : Database := (updTxS0.BeginTransaction 1).2

def updTxS2 : Database := (updTxS1.UpdateTx "t" 0 ["b"]).2

/-- Scenario state: an empty table `t(id)`. -/
def tableOne : Database := (emptyDatabase.CreateTable "t" ["id"]).2

/-- The parsed form of a WHERE clause that is a single top-level equality
comparison `col = value` (one condition, no logic operators, group 0). -/
def singleEq (col value : String) : WhereExpression :=
  { conditions := [{ column := col, operator := .opEquals, value := value }],
    logicOps := [], groups := [0] }

/-- Predicate picking the rows whose cell in column position `ci` equals
the literal. -/
def eqPred (ci : Nat) (value : String) (row : Row) : Bool :=
  match row.get? ci with
  | some cell => cell == value
  | none => false

/-- A state whose table `t(k)` holds one row `b` while its hash index on
`k` is present but empty — the index-served answer and the scan answer
disagree on it. -/
def staleIdxTable : Table :=
  { name := "t", columns := ["k"], rows := [["b"]], indexedColumns := ["k"],
    indexes := [("k", [])] }

def staleIdxDB : Database :=
  { tables := [("t", staleIdxTable)], disk := [], wal := [], txs := [],
    currentTransaction := none, nextID := 1 }

/-- One entry `(p, v)` of a bucket is sound for the given row sequence at
column position `ci` when row `p` exists and its `ci`-th cell is `v`. -/
def bucketEntryOk (rows : List Row) (ci : Nat) (v : String) (p : Nat) : Bool :=
  match rows.get? p with
  | some row => row.get? ci == some v
  | none => false

/-- The index-coherence condition of the spec for one indexed column `c`
against an expected position count `m`: the column resolves in the schema,
its bucket map is present, every bucket entry points at a row carrying the
bucket's value in that column, and the positions collected across all
buckets are exactly `0..m-1`. -/
def colIndexOk (t : Table) (c : String) (m : Nat) : Bool :=
  match t.columns.findIdx? (· == c), lookupA t.indexes c with
  | some ci, some buckets =>
      buckets.all (fun vp => vp.2.all (fun p => bucketEntryOk t.rows ci vp.1 p)) &&
        decide (List.Perm ((buckets.map Prod.snd).flatten) (List.range m))
  | _, _ => false

/-- Well-formedness of a table as maintained by the table store: row arity
matches the schema, the indexed-column list is duplicate-free (CreateIndex
guards against duplicates), and every indexed column satisfies
index-coherence for the full row count. -/
def TableWF (t : Table) : Prop :=
  (∀ row ∈ t.rows, row.length = t.columns.length) ∧
  t.indexedColumns.Nodup ∧
  (∀ c ∈ t.indexedColumns, colIndexOk t c t.rows.length = true)

/-- Every table of the store is well-formed. -/
def DBWF (db : Database) : Prop :=
  ∀ p ∈ db.tables, TableWF p.2

/-- A direct (non-transactional) table-store call. -/
inductive DirectCall where
  | createTable (name : String) (columns : List String)
  | insertRow (table : String) (values : List String)
  | updateRow (table : String) (rowIndex : Int) (values : List String)
  | deleteRow (table : String) (rowIndex : Int)
  | dropTable (table : String)
  | createIndex (table : String) (column : String)
deriving Repr, DecidableEq

/-- Dispatch one direct call. -/
def runDirect1 (db : Database) : DirectCall → String × Database
  | .createTable n cols => db.CreateTable n cols
  | .insertRow tn vs => db.Insert tn vs
  | .updateRow tn i vs => db.Update tn i vs
  | .deleteRow tn i => db.Delete tn i
  | .dropTable tn => db.DropTable tn
  | .createIndex tn cn => db.CreateIndex tn cn

/-- Run a sequence of direct calls, keeping only the state. -/
def runDirect (db : Database) (cs : List DirectCall) : Database :=
  cs.foldl (fun d c => (runDirect1 d c).2) db

/-- A concrete coherent table, used to instantiate the load part of the
coherence claim. -/
def cohTable : Table :=
  { name := "t", columns := ["a"], rows := [["x"]], indexedColumns := ["a"],
    indexes := [("a", [("x", [0])])] }

/-- Scenario state: an engine with one active transaction in its
current-transaction slot. -/
def beganOnce : Database := (emptyDatabase.BeginTransaction 1).2

/-- The transaction registered in `beganOnce`. -/
def beganTx : Txn :=
  { id := "tx_1", state := .active, isolationLevel := 1, operations := [], savepoints := [] }

/-- `uint32` range check for a serialized numeric field. -/
def numOk (n : Nat) : Bool := decide (n < 4294967296)

/-- A string field whose serialized length fits `uint32`. -/
def textOk (s : String) : Bool := numOk s.toList.length

/-- A string-list field whose count and members fit `uint32` lengths. -/
def textsOk (xs : List String) : Bool := numOk xs.length && xs.all textOk

/-- Records whose serialized fields and total payload length fit the
4-byte framing — every record the engine actually writes is this small. -/
def entryOk (e : WalEntry) : Bool :=
  numOk (encodeEntryPayload e).length &&
    match e with
    | .createTable t cols => textOk t && textsOk cols
    | .insertRow t vs => textOk t && textsOk vs
    | .updateRow t ri vs => textOk t && numOk ri && textsOk vs
    | .deleteRow t ri => textOk t && numOk ri
    | .dropTable t => textOk t
    | .checkpoint => true
    | .beginTransaction iso => numOk iso
    | .rollbackTransaction txid => textOk txid
    | .savepoint txid n i => textOk txid && textOk n && numOk i
    | .rollbackToSavepoint txid n i => textOk txid && textOk n && numOk i

theorem lookupA_insertA_self {α : Type} (m : List (String × α)) (k : String) (v : α) :
    lookupA (insertA m k v) k = some v := by
  induction m with
  | nil => simp [insertA, lookupA]
  | cons p rest ih =>
      obtain ⟨k0, v0⟩ := p
      by_cases h : k0 = k
      · simp [insertA, lookupA, h]
      · simpa [insertA, lookupA, h] using ih

theorem lookupA_insertA_ne {α : Type} (m : List (String × α)) (k k1 : String) (v : α)
    (h : k1 ≠ k) : lookupA (insertA m k v) k1 = lookupA m k1 := by
  induction m with
  | nil => simp [insertA, lookupA, Ne.symm h]
  | cons p rest ih =>
      obtain ⟨k0, v0⟩ := p
      by_cases h0 : k0 = k
      · subst h0
        simp [insertA, lookupA, Ne.symm h]
      · by_cases h1 : k0 = k1
        · subst h1
          simp [insertA, lookupA, h0]
        · simpa [insertA, lookupA, h0, h1] using ih

/-- Claim C10: calling BeginTransaction while the engine already holds an
active current transaction does not fail: it creates and returns a fresh
Active transaction and overwrites the engine's single current-transaction
slot, while the previous transaction remains registered in the transaction
manager in the Active state — it is neither committed, rolled back, nor
aborted by this call.  (The freshness hypothesis is the Go invariant that
the id built from the monotone counter is not yet registered.) -/
theorem C10_begin_with_active_current (db : Database) (iso : Nat) (oldID : String) (tx0 : Txn)
    (hcur : db.currentTransaction = some oldID)
    (hold : lookupA db.txs oldID = some tx0)
    (hact : tx0.state = TxState.active)
    (hfresh : lookupA db.txs ("tx_" ++ toString db.nextID) = none) :
    (db.BeginTransaction iso).1.state = TxState.active ∧
    (db.BeginTransaction iso).2.currentTransaction = some (db.BeginTransaction iso).1.id ∧
    (db.BeginTransaction iso).1.id ≠ oldID ∧
    lookupA (db.BeginTransaction iso).2.txs oldID = some tx0 ∧
    (lookupA (db.BeginTransaction iso).2.txs (db.BeginTransaction iso).1.id).map Txn.state
      = some TxState.active := by
  have hne : oldID ≠ "tx_" ++ toString db.nextID := by
    intro h
    rw [h, hfresh] at hold
    exact Option.noConfusion hold
  refine ⟨rfl, rfl, fun h => hne h.symm, ?_, ?_⟩
  · show lookupA (insertA db.txs ("tx_" ++ toString db.nextID) _) oldID = some tx0
    rw [lookupA_insertA_ne _ _ _ _ hne, hold]
  · show (lookupA (insertA db.txs ("tx_" ++ toString db.nextID) _)
        ("tx_" ++ toString db.nextID)).map Txn.state = some TxState.active
    rw [lookupA_insertA_self]
    rfl

/-- Witness for C10 at a concrete state holding one active transaction. -/
theorem C10_begin_with_active_current_witness :
    (beganOnce.BeginTransaction 1).1.state = TxState.active ∧
    (beganOnce.BeginTransaction 1).2.currentTransaction =
      some (beganOnce.BeginTransaction 1).1.id ∧
    (beganOnce.BeginTransaction 1).1.id ≠ "tx_1" ∧
    lookupA (beganOnce.BeginTransaction 1).2.txs "tx_1" = some beganTx ∧
    (lookupA (beganOnce.BeginTransaction 1).2.txs
        (beganOnce.BeginTransaction 1).1.id).map Txn.state = some TxState.active :=
  C10_begin_with_active_current beganOnce 1 "tx_1" beganTx (by decide) (by decide)
    (by decide) (by decide)

/-- Claim C2 is false on this code: after `CREATE TABLE t(a); INSERT x;
CREATE INDEX ON t(a)` the WAL ends with a CHECKPOINT, yet restarting
yields a different observable state (the index on `a` is gone), because
replay reapplies every record — including the CREATE_TABLE before the last
checkpoint — and its table object carries no indexed columns. -/
theorem C2_counterexample :
    restartPre.wal.getLast? = some WalEntry.checkpoint ∧
    restartPost.tables ≠ restartPre.tables := by decide

/-- Claim C2 amended: replay applies every WAL record from the start of the
log (the skip-before-last-checkpoint branch is disabled in the source); a
replayed CREATE_TABLE record resets the table to empty rows with no
indexed columns and no indexes, so while the rows of the scenario table
are rebuilt to their pre-restart value, its indexed-column metadata and
index contents are lost across the restart. -/
theorem C2_amended :
    (∀ (db : Database) (t : String) (cols : List String),
        lookupA (WM.replayEntry db (.createTable t cols)).tables t =
          some { name := t, columns := cols, rows := [], indexedColumns := [],
                 indexes := [] }) ∧
    restartPre.tables =
      [("t", { name := "t", columns := ["a"], rows := [["x"]], indexedColumns := ["a"],
               indexes := [("a", [("x", [0])])] })] ∧
    restartPost.tables =
      [("t", { name := "t", columns := ["a"], rows := [["x"]], indexedColumns := [],
               indexes := [] })] := by
  refine ⟨fun db t cols => ?_, by decide, by decide⟩
  show lookupA (insertA db.tables t _) t = _
  rw [lookupA_insertA_self]

/-- Claim C3 evaluated on the code at the failing input `BEGIN; INSERT '1';
SAVEPOINT s; INSERT '2'; ROLLBACK TO SAVEPOINT s; COMMIT`: the savepoint
bookkeeping behaves as claimed (the savepoint survives the rollback-to and
the buffer is truncated back to one operation), but the commit does not
succeed: applying buffered operation 0 fails (its `[]string` payload does
not satisfy the `[]interface{}` type assertion of `applyOperation`), the
failure path deadlocks on `tx.mu`, and no row is ever applied. -/
theorem C3_commit_rejects_buffered_insert :
    svpS5.CommitTransaction = CommitOutcome.stuck svpS5 ∧
    (lookupA svpS5.txs "tx_1").map Txn.savepoints = some [("s", 1)] ∧
    ((lookupA svpS5.txs "tx_1").map (fun tx => tx.operations.length)) = some 1 ∧
    (lookupA svpS5.tables "t").map Table.rows = some [] := by decide

/-- Claim C4 evaluated on the code: committing a transaction whose buffered
operations are `UpdateTx t 0 [x]` (appliable) followed by `DeleteTx t 1`
(rejected by the payload type assertion) applies operation 0 with no undo,
but then — instead of marking the transaction rolled back and returning an
error naming index 1 — the commit call deadlocks re-acquiring `tx.mu`
inside `rollbackTransactionUnsafe`: the transaction stays registered and
Active, its buffer is not discarded, and no error is returned. -/
theorem C4_mid_commit_failure_deadlocks :
    commitIsStuck midS3.CommitTransaction = true ∧
    (lookupA (commitState midS3.CommitTransaction).tables "t").map Table.rows =
      some [["x"], ["b"]] ∧
    (lookupA (commitState midS3.CommitTransaction).txs "tx_1").map Txn.state =
      some TxState.active ∧
    ((lookupA (commitState midS3.CommitTransaction).txs "tx_1").map
      (fun tx => tx.operations.length)) = some 2 ∧
    (commitState midS3.CommitTransaction).currentTransaction = some "tx_1" := by decide

/-- Invariant while a transaction is open: the engine slot holds `t`, and
`t` is registered and Active. -/
def InTx (db : Database) (t : String) : Prop :=
  db.currentTransaction = some t ∧
    ∃ tx, lookupA db.txs t = some tx ∧ tx.state = TxState.active

theorem addOperation_ok_frame {db db2 : Database} {txID tn : String} {ty : WalType}
    {data : List (String × GoVal)}
    (h : TM.AddOperation db txID ty tn data = .ok db2) :
    db2.tables = db.tables ∧ db2.disk = db.disk ∧
    db2.currentTransaction = db.currentTransaction ∧
    ∀ t, (∃ tx, lookupA db.txs t = some tx ∧ tx.state = TxState.active) →
      ∃ tx, lookupA db2.txs t = some tx ∧ tx.state = TxState.active := by
  unfold TM.AddOperation at h
  split at h
  · exact Except.noConfusion h
  · rename_i tx0 hl
    split at h
    · exact Except.noConfusion h
    · rename_i hcond
      have hact : tx0.state = TxState.active := by
        by_contra hne
        exact hcond (by simp [bne_iff_ne, hne])
      injection h with h
      subst h
      refine ⟨rfl, rfl, rfl, fun t ht => ?_⟩
      obtain ⟨tx, hltx, hst⟩ := ht
      by_cases hteq : t = txID
      · subst hteq
        exact ⟨_, lookupA_insertA_self _ _ _, hact⟩
      · rw [lookupA_insertA_ne _ _ _ _ hteq]
        exact ⟨tx, hltx, hst⟩

theorem runCall_frame {db : Database} {t : String} (h : InTx db t) (c : EngCall) :
    (runCall db c).2.tables = db.tables ∧ (runCall db c).2.disk = db.disk ∧
    InTx (runCall db c).2 t := by
  obtain ⟨hcur, tx, hltx, hst⟩ := h
  have keepInTx : InTx db t := ⟨hcur, tx, hltx, hst⟩
  have viaAdd : ∀ (ty : WalType) (tn : String) (data : List (String × GoVal)) (db2 : Database),
      TM.AddOperation db t ty tn data = .ok db2 →
      db2.tables = db.tables ∧ db2.disk = db.disk ∧ InTx db2 t := by
    intro ty tn data db2 hop
    obtain ⟨h1, h2, h3, h4⟩ := addOperation_ok_frame hop
    exact ⟨h1, h2, h3.trans hcur, h4 t ⟨tx, hltx, hst⟩⟩
  cases c with
  | createTableTx n cols =>
      simp only [runCall, Database.CreateTableTx]
      cases hl : lookupA db.tables (goToLower n) with
      | some tb => exact ⟨by trivial, by trivial, keepInTx⟩
      | none =>
          simp only [hcur]
          cases hop : TM.AddOperation db t .createTable (goToLower n)
              [("columns", .strList cols)] with
          | ok db2 => exact viaAdd _ _ _ _ hop
          | error e => exact ⟨by trivial, by trivial, keepInTx⟩
  | insertTx tn vs =>
      simp only [runCall, Database.InsertTx]
      cases hl : lookupA db.tables (goToLower tn) with
      | none => exact ⟨by trivial, by trivial, keepInTx⟩
      | some tb =>
          by_cases harr : vs.length ≠ tb.columns.length
          · simp only [if_pos harr]
            exact ⟨by trivial, by trivial, keepInTx⟩
          · simp only [if_neg harr, hcur]
            cases hop : TM.AddOperation db t .insertRow (goToLower tn)
                [("values", .strList vs)] with
            | ok db2 => exact viaAdd _ _ _ _ hop
            | error e => exact ⟨by trivial, by trivial, keepInTx⟩
  | updateTx tn i vs =>
      simp only [runCall, Database.UpdateTx]
      cases hl : lookupA db.tables (goToLower tn) with
      | none => exact ⟨by trivial, by trivial, keepInTx⟩
      | some tb =>
          by_cases hb : i < 0 ∨ i ≥ (tb.rows.length : Int)
          · simp only [if_pos hb]
            exact ⟨by trivial, by trivial, keepInTx⟩
          · simp only [if_neg hb]
            by_cases harr : vs.length ≠ tb.columns.length
            · simp only [if_pos harr]
              exact ⟨by trivial, by trivial, keepInTx⟩
            · simp only [if_neg harr, hcur]
              cases hop : TM.AddOperation db t .updateRow (goToLower tn)
                  [("row_index", .intV i), ("values", .strList vs)] with
              | ok db2 => exact viaAdd _ _ _ _ hop
              | error e => exact ⟨by trivial, by trivial, keepInTx⟩
  | deleteTx tn i =>
      simp only [runCall, Database.DeleteTx]
      cases hl : lookupA db.tables (goToLower tn) with
      | none => exact ⟨by trivial, by trivial, keepInTx⟩
      | some tb =>
          by_cases hb : i < 0 ∨ i ≥ (tb.rows.length : Int)
          · simp only [if_pos hb]
            exact ⟨by trivial, by trivial, keepInTx⟩
          · simp only [if_neg hb, hcur]
            cases hop : TM.AddOperation db t .deleteRow (goToLower tn)
                [("row_index", .intV i)] with
            | ok db2 => exact viaAdd _ _ _ _ hop
            | error e => exact ⟨by trivial, by trivial, keepInTx⟩
  | dropTableTx tn =>
      simp only [runCall, Database.DropTableTx]
      cases hl : lookupA db.tables (goToLower tn) with
      | none => exact ⟨by trivial, by trivial, keepInTx⟩
      | some tb =>
          simp only [hcur]
          cases hop : TM.AddOperation db t .dropTable (goToLower tn) [] with
          | ok db2 => exact viaAdd _ _ _ _ hop
          | error e => exact ⟨by trivial, by trivial, keepInTx⟩

theorem runCalls_frame {db : Database} {t : String} (h : InTx db t) (cs : List EngCall) :
    (runCalls db cs).tables = db.tables ∧ (runCalls db cs).disk = db.disk ∧
    InTx (runCalls db cs) t := by
  induction cs generalizing db with
  | nil => exact ⟨rfl, rfl, h⟩
  | cons c rest ih =>
      obtain ⟨h1, h2, h3⟩ := runCall_frame h c
      obtain ⟨g1, g2, g3⟩ := ih h3
      exact ⟨g1.trans h1, g2.trans h2, g3⟩

theorem rollback_ok_of_inTx {db : Database} {t : String} (h : InTx db t) :
    ∃ db2, db.RollbackTransaction = .ok db2 ∧ db2.tables = db.tables ∧
      db2.disk = db.disk := by
  obtain ⟨hcur, tx, hltx, hst⟩ := h
  unfold Database.RollbackTransaction TM.RollbackTransaction TM.rollbackTransactionUnsafe
  simp only [hcur, hltx, hst, bne_self_eq_false, Bool.false_eq_true, if_false]
  exact ⟨_, rfl, rfl, rfl⟩

theorem begin_frame (db0 : Database) (iso : Nat) :
    (db0.BeginTransaction iso).2.tables = db0.tables ∧
    (db0.BeginTransaction iso).2.disk = db0.disk ∧
    InTx (db0.BeginTransaction iso).2 ("tx_" ++ toString db0.nextID) := by
  refine ⟨rfl, rfl, rfl, ?_⟩
  exact ⟨_, lookupA_insertA_self _ _ _, rfl⟩

/-- Claim C5: for every sequence of buffered mutating engine calls
(CreateTableTx, InsertTx, UpdateTx, DeleteTx, DropTableTx) issued inside
an active transaction and followed by RollbackTransaction, the observable
state of every table — in memory (`tables`, including columns, rows,
indexed columns and index contents) and on disk (`disk`) — equals its
state from just before BeginTransaction; the buffered calls themselves
touch neither table memory nor table files, and the final rollback
succeeds. -/
theorem C5_rollback_frame (db0 : Database) (iso : Nat) (cs : List EngCall) :
    (runCalls (db0.BeginTransaction iso).2 cs).tables = db0.tables ∧
    (runCalls (db0.BeginTransaction iso).2 cs).disk = db0.disk ∧
    ∃ db2, (runCalls (db0.BeginTransaction iso).2 cs).RollbackTransaction = .ok db2 ∧
      db2.tables = db0.tables ∧ db2.disk = db0.disk := by
  obtain ⟨b1, b2, b3⟩ := begin_frame db0 iso
  obtain ⟨r1, r2, r3⟩ := runCalls_frame b3 cs
  obtain ⟨db2, hok, k1, k2⟩ := rollback_ok_of_inTx r3
  exact ⟨r1.trans b1, r2.trans b2, db2, hok, k1.trans (r1.trans b1), k2.trans (r2.trans b2)⟩

theorem applyCreateTable_wal {db db2 : Database} {tn : String} {cols : List String}
    (h : TM.applyCreateTable db tn cols = .ok db2) : db2.wal = db.wal := by
  unfold TM.applyCreateTable Database.saveTable at h
  split at h
  · exact Except.noConfusion h
  · injection h with h
    subst h
    rfl

theorem applyInsert_wal {db db2 : Database} {tn : String} {vs : List String}
    (h : TM.applyInsert db tn vs = .ok db2) : db2.wal = db.wal := by
  unfold TM.applyInsert Database.saveTable at h
  split at h
  · exact Except.noConfusion h
  · split at h
    · exact Except.noConfusion h
    · injection h with h
      subst h
      rfl

theorem applyUpdate_wal {db db2 : Database} {tn : String} {ri : Int} {vs : List String}
    (h : TM.applyUpdate db tn ri vs = .ok db2) : db2.wal = db.wal := by
  unfold TM.applyUpdate Database.saveTable at h
  split at h
  · exact Except.noConfusion h
  · split at h
    · exact Except.noConfusion h
    · split at h
      · exact Except.noConfusion h
      · injection h with h
        subst h
        rfl

theorem applyDelete_wal {db db2 : Database} {tn : String} {ri : Int}
    (h : TM.applyDelete db tn ri = .ok db2) : db2.wal = db.wal := by
  unfold TM.applyDelete Database.saveTable at h
  split at h
  · exact Except.noConfusion h
  · split at h
    · exact Except.noConfusion h
    · injection h with h
      subst h
      rfl

theorem applyDropTable_wal {db db2 : Database} {tn : String}
    (h : TM.applyDropTable db tn = .ok db2) : db2.wal = db.wal := by
  unfold TM.applyDropTable at h
  split at h
  · exact Except.noConfusion h
  · injection h with h
    subst h
    rfl

theorem applyOperation_ok_wal {db db2 : Database} {op : TxOp}
    (h : TM.applyOperation db op = .ok db2) :
    db2.wal = db.wal := by
  unfold TM.applyOperation at h
  split at h
  all_goals try (split at h)
  all_goals first
    | exact Except.noConfusion h
    | exact applyCreateTable_wal h
    | exact applyInsert_wal h
    | exact applyUpdate_wal h
    | exact applyDelete_wal h
    | exact applyDropTable_wal h

theorem applyOps_wal (ops : List TxOp) (db : Database) :
    (TM.applyOps db ops).1.wal = db.wal := by
  induction ops generalizing db with
  | nil => rfl
  | cons op rest ih =>
      show (TM.applyOps db (op :: rest)).1.wal = db.wal
      unfold TM.applyOps
      cases hop : TM.applyOperation db op with
      | ok dbn => rw [ih dbn, applyOperation_ok_wal hop]
      | error e => rfl

theorem buildIndexForColumn_skel (t : Table) (c : String) :
    (buildIndexForColumn t c).rows = t.rows ∧ (buildIndexForColumn t c).columns = t.columns ∧
    (buildIndexForColumn t c).name = t.name ∧
    (buildIndexForColumn t c).indexedColumns = t.indexedColumns := by
  unfold buildIndexForColumn
  cases t.columns.findIdx? (· == c) <;> exact ⟨rfl, rfl, rfl, rfl⟩

theorem foldBuild_skel (cols : List String) (t : Table) :
    ((cols.foldl buildIndexForColumn t).rows = t.rows) ∧
    ((cols.foldl buildIndexForColumn t).columns = t.columns) ∧
    ((cols.foldl buildIndexForColumn t).name = t.name) ∧
    ((cols.foldl buildIndexForColumn t).indexedColumns = t.indexedColumns) := by
  induction cols generalizing t with
  | nil => exact ⟨rfl, rfl, rfl, rfl⟩
  | cons c rest ih =>
      obtain ⟨s1, s2, s3, s4⟩ := buildIndexForColumn_skel t c
      obtain ⟨r1, r2, r3, r4⟩ := ih (buildIndexForColumn t c)
      exact ⟨r1.trans s1, r2.trans s2, r3.trans s3, r4.trans s4⟩

theorem rebuildAllIndexes_skel (t : Table) :
    (rebuildAllIndexes t).rows = t.rows ∧ (rebuildAllIndexes t).columns = t.columns ∧
    (rebuildAllIndexes t).name = t.name ∧
    (rebuildAllIndexes t).indexedColumns = t.indexedColumns :=
  foldBuild_skel t.indexedColumns t

theorem applyIndexOnInsertCol_skel (row : Row) (ri : Nat) (t : Table) (c : String) :
    (applyIndexOnInsertCol row ri t c).rows = t.rows ∧
    (applyIndexOnInsertCol row ri t c).columns = t.columns ∧
    (applyIndexOnInsertCol row ri t c).name = t.name ∧
    (applyIndexOnInsertCol row ri t c).indexedColumns = t.indexedColumns := by
  unfold applyIndexOnInsertCol
  cases t.columns.findIdx? (· == c) with
  | none => exact ⟨rfl, rfl, rfl, rfl⟩
  | some ci =>
      dsimp only
      cases row.get? ci <;> exact ⟨rfl, rfl, rfl, rfl⟩

theorem foldIns_skel (cols : List String) (row : Row) (ri : Nat) (t : Table) :
    ((cols.foldl (applyIndexOnInsertCol row ri) t).rows = t.rows) ∧
    ((cols.foldl (applyIndexOnInsertCol row ri) t).columns = t.columns) ∧
    ((cols.foldl (applyIndexOnInsertCol row ri) t).name = t.name) ∧
    ((cols.foldl (applyIndexOnInsertCol row ri) t).indexedColumns = t.indexedColumns) := by
  induction cols generalizing t with
  | nil => exact ⟨rfl, rfl, rfl, rfl⟩
  | cons c rest ih =>
      obtain ⟨s1, s2, s3, s4⟩ := applyIndexOnInsertCol_skel row ri t c
      obtain ⟨r1, r2, r3, r4⟩ := ih (applyIndexOnInsertCol row ri t c)
      exact ⟨r1.trans s1, r2.trans s2, r3.trans s3, r4.trans s4⟩

theorem applyIndexesOnInsert_skel (t : Table) (k : Nat) :
    (applyIndexesOnInsert t k).rows = t.rows ∧
    (applyIndexesOnInsert t k).columns = t.columns ∧
    (applyIndexesOnInsert t k).name = t.name ∧
    (applyIndexesOnInsert t k).indexedColumns = t.indexedColumns := by
  unfold applyIndexesOnInsert
  cases t.rows.get? k with
  | none => exact ⟨rfl, rfl, rfl, rfl⟩
  | some row => exact foldIns_skel t.indexedColumns row k t

/-- Claim C1 is false on this code: the WAL gating does not extend to the
buffered operations applied during COMMIT.  In the scenario, a committed
`UpdateTx` changes the table row from `a` to `b` and persists it, yet the
WAL ends at the BEGIN record: no record describing the update and no
CHECKPOINT were ever appended, so the data-side mutation happened without
any WAL record describing it. -/
theorem C1_counterexample :
    commitIsOk updTxS2.CommitTransaction = true ∧
    (lookupA (commitState updTxS2.CommitTransaction).tables "t").map Table.rows =
      some [["b"]] ∧
    (lookupA (commitState updTxS2.CommitTransaction).disk "t").map DiskTable.rows =
      some [["b"]] ∧
    (commitState updTxS2.CommitTransaction).wal =
      [.createTable "t" ["id"], .checkpoint, .insertRow "t" ["a"], .checkpoint,
       .beginTransaction 1] := by decide

/-- Claim C1 amended: the log-before-data discipline holds only for the
direct (non-transactional) table-store operations — each successful
CreateTable, Insert, Update, Delete and DropTable appends the WAL record
describing it and then, after the data-side mutation, a CHECKPOINT — while
CreateIndex appends nothing, and the buffered operations applied during
COMMIT run entirely outside the WAL: a successful commit leaves the WAL
exactly as it was. -/
theorem C1_amended :
    (∀ (db : Database) (n : String) (cols : List String),
        lookupA db.tables (goToLower n) = none →
        (db.CreateTable n cols).2.wal =
          db.wal ++ [.createTable (goToLower n) cols, .checkpoint]) ∧
    (∀ (db : Database) (tn : String) (vs : List String) (t : Table),
        lookupA db.tables (goToLower tn) = some t →
        vs.length = t.columns.length →
        (db.Insert tn vs).2.wal =
          db.wal ++ [.insertRow (goToLower tn) vs, .checkpoint] ∧
        (lookupA (db.Insert tn vs).2.tables (goToLower tn)).map Table.rows =
          some (t.rows ++ [vs])) ∧
    (∀ (db : Database) (tn : String) (i : Int) (vs : List String) (t : Table),
        lookupA db.tables (goToLower tn) = some t →
        ¬(i < 0 ∨ i ≥ (t.rows.length : Int)) →
        vs.length = t.columns.length →
        (db.Update tn i vs).2.wal =
          db.wal ++ [.updateRow (goToLower tn) i.toNat vs, .checkpoint] ∧
        (lookupA (db.Update tn i vs).2.tables (goToLower tn)).map Table.rows =
          some (t.rows.set i.toNat vs)) ∧
    (∀ (db : Database) (tn : String) (i : Int) (t : Table),
        lookupA db.tables (goToLower tn) = some t →
        ¬(i < 0 ∨ i ≥ (t.rows.length : Int)) →
        (db.Delete tn i).2.wal =
          db.wal ++ [.deleteRow (goToLower tn) i.toNat, .checkpoint] ∧
        (lookupA (db.Delete tn i).2.tables (goToLower tn)).map Table.rows =
          some (t.rows.eraseIdx i.toNat)) ∧
    (∀ (db : Database) (tn : String) (t : Table),
        lookupA db.tables (goToLower tn) = some t →
        (db.DropTable tn).2.wal = db.wal ++ [.dropTable (goToLower tn), .checkpoint]) ∧
    (∀ (db : Database) (tn cn : String), (db.CreateIndex tn cn).2.wal = db.wal) ∧
    (∀ (db : Database) (txID : String) (db2 : Database),
        TM.CommitTransaction db txID = .ok db2 → db2.wal = db.wal) := by
  refine ⟨?_, ?_, ?_, ?_, ?_, ?_, ?_⟩
  · intro db n cols h1
    unfold Database.CreateTable Database.writeEntry Database.saveTable
    simp only [h1, List.append_assoc, List.cons_append, List.nil_append]
  · intro db tn vs t h1 h2
    unfold Database.Insert Database.writeEntry Database.saveTable
    simp only [h1]
    rw [if_neg (fun hh => hh h2)]
    refine ⟨by simp, ?_⟩
    show (lookupA (insertA db.tables (goToLower tn) _) (goToLower tn)).map Table.rows = _
    rw [lookupA_insertA_self]
    simp only [Option.map_some']
    rw [(applyIndexesOnInsert_skel _ _).1]
  · intro db tn i vs t h1 hb h2
    unfold Database.Update Database.writeEntry Database.saveTable
    simp only [h1]
    rw [if_neg hb, if_neg (fun hh => hh h2)]
    refine ⟨by simp, ?_⟩
    show (lookupA (insertA db.tables (goToLower tn) _) (goToLower tn)).map Table.rows = _
    rw [lookupA_insertA_self]
    simp only [Option.map_some']
    rw [(rebuildAllIndexes_skel _).1]
  · intro db tn i t h1 hb
    unfold Database.Delete Database.writeEntry Database.saveTable
    simp only [h1]
    rw [if_neg hb]
    refine ⟨by simp, ?_⟩
    show (lookupA (insertA db.tables (goToLower tn) _) (goToLower tn)).map Table.rows = _
    rw [lookupA_insertA_self]
    simp only [Option.map_some']
    rw [(rebuildAllIndexes_skel _).1]
  · intro db tn t h1
    unfold Database.DropTable Database.writeEntry
    simp only [h1, List.append_assoc, List.cons_append, List.nil_append]
  · intro db tn cn
    unfold Database.CreateIndex Database.saveTable
    dsimp only
    cases lookupA db.tables (goToLower tn) with
    | none => rfl
    | some table =>
        dsimp only
        cases table.columns.findIdx? (· == goTrim cn) <;> rfl
  · intro db txID db2 h
    unfold TM.CommitTransaction at h
    split at h
    · exact CommitOutcome.noConfusion h
    · split at h
      · exact CommitOutcome.noConfusion h
      · rename_i tx hl hact
        split at h
        · exact CommitOutcome.noConfusion h
        · rename_i dbn hnone
          injection h with h
          subst h
          have hw := applyOps_wal tx.operations db
          rw [hnone] at hw
          exact hw

/-- Witness for C1 amended: a concrete insert into `t(id)` appends its WAL
record and checkpoint and lands the row. -/
theorem C1_amended_witness :
    (tableOne.Insert "t" ["z"]).2.wal =
      tableOne.wal ++ [.insertRow (goToLower "t") ["z"], .checkpoint] ∧
    (lookupA (tableOne.Insert "t" ["z"]).2.tables (goToLower "t")).map Table.rows =
      some ([] ++ [["z"]]) :=
  C1_amended.2.1 tableOne "t" ["z"]
    { name := "t", columns := ["id"], rows := [], indexedColumns := [], indexes := [] }
    (by decide) (by decide)

theorem splits_mem (cs : List Char) (pr : List Char × List Char) :
    pr ∈ splits cs ↔ pr.1 ++ pr.2 = cs := by
  induction cs generalizing pr with
  | nil =>
      obtain ⟨a, b⟩ := pr
      simp [splits, List.append_eq_nil]
  | cons c cs2 ih =>
      obtain ⟨a, b⟩ := pr
      simp only [splits, List.mem_cons, List.mem_map, Prod.mk.injEq]
      constructor
      · rintro (⟨h1, h2⟩ | ⟨q, hq, h1, h2⟩)
        · simp [h1, h2]
        · have := (ih q).mp hq
          subst h1
          subst h2
          simpa using this
      · intro h
        cases a with
        | nil =>
            left
            exact ⟨rfl, by simpa using h⟩
        | cons a0 a2 =>
            right
            obtain ⟨e1, e2⟩ := List.cons.inj h
            exact ⟨(a2, b), (ih (a2, b)).mpr e2, by rw [e1], rfl⟩

theorem Matches.nil_inv {cs : List Char} (m : Matches [] cs) : cs = [] := by
  cases m
  rfl

theorem Matches.pct_inv {ps cs : List Char} (m : Matches ('%' :: ps) cs) :
    ∃ pre post, cs = pre ++ post ∧ (∀ c ∈ pre, c ≠ '\n') ∧ Matches ps post := by
  cases m with
  | pct ps pre post hpre hm => exact ⟨pre, post, rfl, hpre, hm⟩
  | lit p ps cs hp1 hp2 hm => exact absurd rfl hp1

theorem Matches.one_inv {ps cs : List Char} (m : Matches ('_' :: ps) cs) :
    ∃ c cs2, cs = c :: cs2 ∧ c ≠ '\n' ∧ Matches ps cs2 := by
  cases m with
  | one ps c cs hc hm => exact ⟨c, cs, rfl, hc, hm⟩
  | lit p ps cs hp1 hp2 hm => exact absurd rfl hp2

theorem Matches.lit_inv {p : Char} {ps cs : List Char} (hp1 : p ≠ '%') (hp2 : p ≠ '_')
    (m : Matches (p :: ps) cs) : ∃ cs2, cs = p :: cs2 ∧ Matches ps cs2 := by
  cases m with
  | pct ps pre post hpre hm => exact absurd rfl hp1
  | one ps c cs hc hm => exact absurd rfl hp2
  | lit p ps cs h1 h2 hm => exact ⟨cs, rfl, hm⟩

theorem likeMatches_iff_Matches (ps : List Char) : ∀ cs : List Char,
    likeMatches ps cs = true ↔ Matches ps cs := by
  induction ps with
  | nil =>
      intro cs
      constructor
      · intro h
        have hnil : cs = [] := by
          cases cs with
          | nil => rfl
          | cons c cs2 => simp [likeMatches] at h
        subst hnil
        exact Matches.nil
      · intro m
        rw [m.nil_inv]
        rfl
  | cons p ps2 ih =>
      intro cs
      by_cases hp : p = '%'
      · subst hp
        rw [show likeMatches ('%' :: ps2) cs =
            (splits cs).any (fun pr => pr.1.all (fun c => c != '\n') && likeMatches ps2 pr.2)
          from by simp [likeMatches]]
        rw [List.any_eq_true]
        constructor
        · rintro ⟨pr, hmem, hf⟩
          obtain ⟨pre, post⟩ := pr
          rw [Bool.and_eq_true] at hf
          have hsplit := (splits_mem cs (pre, post)).mp hmem
          have hpre : ∀ c ∈ pre, c ≠ '\n' := by
            intro c hc
            have := List.all_eq_true.mp hf.1 c hc
            simpa using this
          have hm := (ih post).mp hf.2
          rw [← hsplit]
          exact Matches.pct ps2 pre post hpre hm
        · intro m
          obtain ⟨pre, post, happ, hpre, hm⟩ := m.pct_inv
          refine ⟨(pre, post), (splits_mem cs (pre, post)).mpr happ.symm, ?_⟩
          rw [Bool.and_eq_true]
          refine ⟨List.all_eq_true.mpr (fun c hc => by simpa using hpre c hc), ?_⟩
          exact (ih post).mpr hm
      · by_cases hp2 : p = '_'
        · subst hp2
          cases cs with
          | nil =>
              constructor
              · intro h
                simp [likeMatches] at h
              · intro m
                obtain ⟨c, cs2, habs, _, _⟩ := m.one_inv
                exact absurd habs (by simp)
          | cons c cs2 =>
              rw [show likeMatches ('_' :: ps2) (c :: cs2) =
                  ((c != '\n') && likeMatches ps2 cs2) from by simp [likeMatches]]
              rw [Bool.and_eq_true]
              constructor
              · rintro ⟨h1, h2⟩
                exact Matches.one ps2 c cs2 (by simpa using h1) ((ih cs2).mp h2)
              · intro m
                obtain ⟨c2, cs3, heq, hc, hm⟩ := m.one_inv
                obtain ⟨e1, e2⟩ := List.cons.inj heq
                subst e1
                subst e2
                exact ⟨by simpa using hc, (ih _).mpr hm⟩
        · cases cs with
          | nil =>
              constructor
              · intro h
                simp [likeMatches, hp, hp2] at h
              · intro m
                obtain ⟨cs2, habs, _⟩ := m.lit_inv hp hp2
                exact absurd habs (by simp)
          | cons c cs2 =>
              rw [show likeMatches (p :: ps2) (c :: cs2) =
                  ((p == c) && likeMatches ps2 cs2) from by simp [likeMatches, hp, hp2]]
              rw [Bool.and_eq_true]
              constructor
              · rintro ⟨h1, h2⟩
                have hpc : p = c := by simpa using h1
                subst hpc
                exact Matches.lit p ps2 cs2 hp hp2 ((ih cs2).mp h2)
              · intro m
                obtain ⟨cs3, heq, hm⟩ := m.lit_inv hp hp2
                obtain ⟨e1, e2⟩ := List.cons.inj heq
                subst e2
                exact ⟨by simpa using e1.symm, (ih _).mpr hm⟩

theorem splitsAny_all (pred : Char → Bool) (cs : List Char) :
    (splits cs).any (fun pr => pr.1.all pred && pr.2.isEmpty) = cs.all pred := by
  induction cs with
  | nil => rfl
  | cons c cs2 ih =>
      simp only [splits, List.any_cons, List.any_map, List.all_nil, Bool.true_and,
        List.isEmpty_cons, Bool.false_or]
      have hcomp : ((fun pr : List Char × List Char => pr.1.all pred && pr.2.isEmpty) ∘
          fun p => (c :: p.1, p.2)) =
          (fun q : List Char × List Char => pred c && (q.1.all pred && q.2.isEmpty)) := by
        funext q
        simp [Function.comp, List.all_cons, Bool.and_assoc]
      rw [hcomp]
      cases hc : pred c
      · simp [List.all_cons, hc]
      · simpa [List.all_cons, hc] using ih

theorem likeMatches_pctOnly (cs : List Char) :
    likeMatches ['%'] cs = cs.all (fun c => c != '\n') := by
  have h1 : likeMatches ['%'] cs =
      (splits cs).any (fun pr => pr.1.all (fun c => c != '\n') && pr.2.isEmpty) := by
    simp [likeMatches]
  rw [h1, splitsAny_all]

/-- Claim C9 is false on this code: `_` does not match the newline byte,
`%` does not match substrings containing a newline, and `LIKE '%'` fails
on a value consisting of one newline, because the compiled Go regular
expression uses `.`, which does not match newline. -/
theorem C9_counterexample :
    evaluateLike "\n" "%" = false ∧ evaluateLike "\n" "_" = false ∧
    evaluateLike "\n" "\n" = true := by decide

/-- Claim C9 amended: `evaluateLike value pattern` matches the whole value
anchored at both ends, where `%` matches any (possibly empty) run of
non-newline characters, `_` matches exactly one non-newline character (a
character, not a byte), and every other pattern character — newline
included — matches itself literally; in particular `LIKE '%'` matches
exactly the values free of newlines, including the empty string. -/
theorem C9_amended :
    (∀ (value pattern : String),
        evaluateLike value pattern = true ↔ Matches pattern.toList value.toList) ∧
    (∀ (value : String),
        evaluateLike value "%" = value.toList.all (fun c => c != '\n')) ∧
    evaluateLike "" "%" = true := by
  refine ⟨?_, ?_, by decide⟩
  · intro value pattern
    exact likeMatches_iff_Matches pattern.toList value.toList
  · intro value
    exact likeMatches_pctOnly value.toList

theorem mapM_ok_of_mem {α β : Type} (l : List α) (f : α → Except String β) (g : α → β)
    (h : ∀ x ∈ l, f x = .ok (g x)) : l.mapM f = .ok (l.map g) := by
  induction l with
  | nil => rfl
  | cons a rest ih =>
      rw [List.mapM_cons, h a (List.mem_cons_self a rest),
        ih (fun x hx => h x (List.mem_cons_of_mem a hx))]
      rfl

theorem zip_flags_filter {α : Type} (l : List α) (pred : α → Bool) :
    (l.zip (l.map pred)).filterMap (fun p => if p.2 then some p.1 else none) =
      l.filter pred := by
  induction l with
  | nil => rfl
  | cons a rest ih =>
      simp only [List.map_cons, List.zip_cons_cons, List.filterMap_cons, List.filter_cons]
      cases hp : pred a <;> simp [hp, ih]

theorem evaluateSingleEq {col value : String} {ci : Nat} (cols : List String) (row : Row)
    (h2 : lookupA (buildColumnIndexes cols) col = some ci)
    (h3 : ci < row.length) :
    EvaluateExpression (singleEq col value) row (buildColumnIndexes cols) =
      .ok (eqPred ci value row) := by
  unfold EvaluateExpression singleEq EvaluateCondition evaluateLogic
  simp only [List.isEmpty_cons, List.mapM_cons, List.mapM_nil, h2]
  cases hg : row.get? ci with
  | none =>
      exact absurd (List.get?_eq_none.mp hg) (by omega)
  | some cell =>
      simp [eqPred, hg, evaluateLogic.go]
      rw [← List.get?_eq_getElem?, hg]

/-- Claim C7 is false on this code: the `SELECT * FROM ... WHERE` branch of
`Engine.Execute` answers every parsed WHERE clause through the general
row-by-row evaluator (`SelectWhereAdvanced`), never through the index-based
`SelectWhere`.  On a state where the hash index of the queried column
disagrees with the rows, the two paths return different results and the
engine returns the scan result, not the index-served one. -/
theorem C7_counterexample :
    executeSelectWhere staleIdxDB "t" (singleEq "k" "b") = "k\nb\n" ∧
    staleIdxDB.SelectWhere "t" "k" "b" = "k\n(no rows)\n" ∧
    executeSelectWhere staleIdxDB "t" (singleEq "k" "b") ≠
      staleIdxDB.SelectWhere "t" "k" "b" := by decide

/-- Claim C7 amended: for a SELECT whose WHERE clause is a single top-level
equality comparison, the engine routes the query to the general evaluator
(`SelectWhereAdvanced`, a full scan) — not to the index — and the rows
returned are exactly those whose value in that column equals the literal. -/
theorem C7_amended (db : Database) (tn col value : String) (t : Table) (ci : Nat)
    (h1 : lookupA db.tables (goToLower tn) = some t)
    (h2 : lookupA (buildColumnIndexes t.columns) col = some ci)
    (h3 : ∀ row ∈ t.rows, ci < row.length) :
    executeSelectWhere db tn (singleEq col value) =
      db.SelectWhereAdvanced (goToLower tn) (singleEq col value) ∧
    db.SelectWhereAdvanced tn (singleEq col value) =
      (String.intercalate " | " t.columns ++ "\n") ++
      String.join ((t.rows.filter (eqPred ci value)).map rowLine) ++
      (if (t.rows.filter (eqPred ci value)).isEmpty then "(no rows)\n" else "") := by
  refine ⟨rfl, ?_⟩
  unfold Database.SelectWhereAdvanced
  simp only [h1]
  rw [mapM_ok_of_mem t.rows _ (eqPred ci value)
    (fun row hrow => evaluateSingleEq t.columns row h2 (h3 row hrow))]
  simp only [zip_flags_filter]

/-- Witness for C7 amended at a concrete table. -/
theorem C7_amended_witness :
    executeSelectWhere staleIdxDB "t" (singleEq "k" "b") =
      staleIdxDB.SelectWhereAdvanced (goToLower "t") (singleEq "k" "b") ∧
    staleIdxDB.SelectWhereAdvanced "t" (singleEq "k" "b") =
      (String.intercalate " | " staleIdxTable.columns ++ "\n") ++
      String.join ((staleIdxTable.rows.filter (eqPred 0 "b")).map rowLine) ++
      (if (staleIdxTable.rows.filter (eqPred 0 "b")).isEmpty then "(no rows)\n" else "") :=
  C7_amended staleIdxDB "t" "k" "b" staleIdxTable 0 (by decide) (by decide)
    (by decide)

theorem findIdx?_some_bounds (p : String → Bool) :
    ∀ (l : List String) (s i : Nat), List.findIdx? p l s = some i → s ≤ i ∧ i < s + l.length := by
  intro l
  induction l with
  | nil =>
      intro s i h
      exact absurd h (by simp [List.findIdx?])
  | cons a rest ih =>
      intro s i h
      rw [show List.findIdx? p (a :: rest) s =
          if p a then some s else List.findIdx? p rest (s + 1) from rfl] at h
      by_cases hp : p a = true
      · rw [if_pos hp] at h
        injection h with h
        subst h
        simp
      · rw [if_neg hp] at h
        have := ih (s + 1) i h
        simp only [List.length_cons]
        omega

theorem findIdx?_some_lt (p : String → Bool) (l : List String) (i : Nat)
    (h : List.findIdx? p l = some i) : i < l.length := by
  have := findIdx?_some_bounds p l 0 i h
  omega

theorem insertA_mem {α : Type} (m : List (String × α)) (k : String) (v : α) :
    ∀ q ∈ insertA m k v, q = (k, v) ∨ q ∈ m := by
  induction m with
  | nil =>
      intro q hq
      simp [insertA] at hq
      left
      exact hq
  | cons p rest ih =>
      obtain ⟨k0, v0⟩ := p
      intro q hq
      rw [show insertA ((k0, v0) :: rest) k v =
          if k0 == k then (k, v) :: rest else (k0, v0) :: insertA rest k v from rfl] at hq
      by_cases h : (k0 == k) = true
      · rw [if_pos h] at hq
        rcases List.mem_cons.mp hq with h1 | h1
        · left; exact h1
        · right; exact List.mem_cons_of_mem _ h1
      · rw [if_neg h] at hq
        rcases List.mem_cons.mp hq with h1 | h1
        · right
          rw [h1]
          exact List.mem_cons_self _ _
        · rcases ih q h1 with h2 | h2
          · left; exact h2
          · right; exact List.mem_cons_of_mem _ h2

theorem removeA_mem {α : Type} (m : List (String × α)) (k : String) :
    ∀ q ∈ removeA m k, q ∈ m := by
  induction m with
  | nil => intro q hq; simp [removeA] at hq
  | cons p rest ih =>
      obtain ⟨k0, v0⟩ := p
      intro q hq
      rw [show removeA ((k0, v0) :: rest) k =
          if k0 == k then rest else (k0, v0) :: removeA rest k from rfl] at hq
      by_cases h : (k0 == k) = true
      · rw [if_pos h] at hq
        exact List.mem_cons_of_mem _ hq
      · rw [if_neg h] at hq
        rcases List.mem_cons.mp hq with h1 | h1
        · rw [h1]; exact List.mem_cons_self _ _
        · exact List.mem_cons_of_mem _ (ih q h1)

theorem bucketAdd_flatten_perm (acc : Buckets) (v : String) (p : Nat) :
    List.Perm (((bucketAdd acc v p).map Prod.snd).flatten)
      (((acc.map Prod.snd).flatten) ++ [p]) := by
  induction acc with
  | nil => simp [bucketAdd]
  | cons q rest ih =>
      obtain ⟨v0, ps⟩ := q
      rw [show bucketAdd ((v0, ps) :: rest) v p =
          if v0 == v then (v0, ps ++ [p]) :: rest
          else (v0, ps) :: bucketAdd rest v p from rfl]
      by_cases h : (v0 == v) = true
      · rw [if_pos h]
        simp only [List.map_cons, List.flatten_cons]
        have h1 : List.Perm (p :: (rest.map Prod.snd).flatten)
            ((rest.map Prod.snd).flatten ++ [p]) :=
          (List.perm_append_singleton p _).symm
        have h2 := h1.append_left ps
        rw [List.append_assoc, List.append_assoc]
        exact h2
      · rw [if_neg h]
        simp only [List.map_cons, List.flatten_cons]
        rw [List.append_assoc]
        exact ih.append_left ps

theorem bucketAdd_sound (acc : Buckets) (v : String) (n : Nat) :
    ∀ vp ∈ bucketAdd acc v n, ∀ p ∈ vp.2,
      (∃ vp0 ∈ acc, vp0.1 = vp.1 ∧ p ∈ vp0.2) ∨ (p = n ∧ vp.1 = v) := by
  induction acc with
  | nil =>
      intro vp hvp p hp
      simp only [bucketAdd, List.mem_singleton] at hvp
      subst hvp
      simp only [List.mem_singleton] at hp
      right
      exact ⟨hp, rfl⟩
  | cons q rest ih =>
      obtain ⟨v0, ps⟩ := q
      intro vp hvp p hp
      rw [show bucketAdd ((v0, ps) :: rest) v n =
          if v0 == v then (v0, ps ++ [n]) :: rest
          else (v0, ps) :: bucketAdd rest v n from rfl] at hvp
      by_cases h : (v0 == v) = true
      · rw [if_pos h] at hvp
        rcases List.mem_cons.mp hvp with h1 | h1
        · subst h1
          rcases List.mem_append.mp hp with h2 | h2
          · left
            exact ⟨(v0, ps), List.mem_cons_self _ _, rfl, h2⟩
          · right
            refine ⟨by simpa using h2, ?_⟩
            simpa using eq_of_beq h
        · left
          exact ⟨vp, List.mem_cons_of_mem _ h1, rfl, hp⟩
      · rw [if_neg h] at hvp
        rcases List.mem_cons.mp hvp with h1 | h1
        · subst h1
          left
          exact ⟨(v0, ps), List.mem_cons_self _ _, rfl, hp⟩
        · rcases ih vp h1 p hp with h2 | h2
          · left
            obtain ⟨vp0, hm, he, hpp⟩ := h2
            exact ⟨vp0, List.mem_cons_of_mem _ hm, he, hpp⟩
          · right
            exact h2

theorem colIndexOk_congr {t1 t2 : Table} {c : String} (m : Nat)
    (hr : t2.rows = t1.rows) (hc : t2.columns = t1.columns)
    (hlook : lookupA t2.indexes c = lookupA t1.indexes c) :
    colIndexOk t2 c m = colIndexOk t1 c m := by
  unfold colIndexOk
  rw [hr, hc, hlook]

theorem buildIndexForColumn_lookup_ne (t : Table) (c c2 : String) (h : c2 ≠ c) :
    lookupA (buildIndexForColumn t c).indexes c2 = lookupA t.indexes c2 := by
  unfold buildIndexForColumn
  cases t.columns.findIdx? (· == c) with
  | none => exact lookupA_insertA_ne _ _ _ _ h
  | some ci => exact lookupA_insertA_ne _ _ _ _ h

theorem buildBuckets_correct (ci : Nat) (allRows : List Row)
    (harity : ∀ row ∈ allRows, ci < row.length) :
    ∀ (rest : List Row) (s : Nat) (acc : Buckets),
      allRows.drop s = rest →
      s ≤ allRows.length →
      (∀ vp ∈ acc, ∀ p ∈ vp.2, bucketEntryOk allRows ci vp.1 p = true) →
      List.Perm ((acc.map Prod.snd).flatten) (List.range s) →
      (∀ vp ∈ buildBuckets rest ci s acc, ∀ p ∈ vp.2,
          bucketEntryOk allRows ci vp.1 p = true) ∧
      List.Perm (((buildBuckets rest ci s acc).map Prod.snd).flatten)
        (List.range allRows.length) := by
  intro rest
  induction rest with
  | nil =>
      intro s acc hdrop hs hacc1 hacc2
      have hlen : s = allRows.length := by
        have h1 : allRows.length ≤ s := by
          by_contra hc
          have : allRows.drop s ≠ [] := by
            intro hempty
            have := List.drop_eq_nil_iff_le.mp hempty
            omega
          exact this hdrop
        omega
      unfold buildBuckets
      exact ⟨hacc1, hlen ▸ hacc2⟩
  | cons row rest2 ih =>
      intro s acc hdrop hs hacc1 hacc2
      have hget : allRows.get? s = some row := by
        have h0 : (allRows.drop s).get? 0 = some row := by rw [hdrop]; rfl
        rw [List.get?_drop] at h0
        simpa using h0
      have hslt : s < allRows.length := by
        by_contra hc
        rw [List.get?_eq_none.mpr (by omega)] at hget
        exact Option.noConfusion hget
      have hmem : row ∈ allRows := List.get?_mem hget
      have hrowlen : ci < row.length := harity row hmem
      cases hv : row.get? ci with
      | none =>
          exact absurd (List.get?_eq_none.mp hv) (by omega)
      | some v =>
          unfold buildBuckets
          simp only [hv]
          have hdrop2 : allRows.drop (s + 1) = rest2 := by
            have h1 : allRows.drop (s + 1) = (allRows.drop s).drop 1 := by
              rw [List.drop_drop]
            rw [h1, hdrop]
            rfl
          refine ih (s + 1) (bucketAdd acc v s) hdrop2 (by omega) ?_ ?_
          · intro vp hvp p hp
            rcases bucketAdd_sound acc v s vp hvp p hp with hold | hnew
            · obtain ⟨vp0, hm0, he0, hp0⟩ := hold
              have := hacc1 vp0 hm0 p hp0
              rw [he0] at this
              exact this
            · obtain ⟨hps, hvv⟩ := hnew
              subst hps
              unfold bucketEntryOk
              rw [hget, hvv]
              rw [List.get?_eq_getElem?] at hv
              simp [hv]
          · refine (bucketAdd_flatten_perm acc v s).trans ?_
            rw [List.range_succ]
            exact hacc2.append_right [s]

theorem buildIndexForColumn_ok (t : Table) (c : String) (ci : Nat)
    (hci : t.columns.findIdx? (· == c) = some ci)
    (harity : ∀ row ∈ t.rows, ci < row.length) :
    colIndexOk (buildIndexForColumn t c) c t.rows.length = true := by
  obtain ⟨h1, h2⟩ := buildBuckets_correct ci t.rows harity t.rows 0 [] rfl (by omega)
    (by intro vp h; simp at h) (by simp)
  unfold buildIndexForColumn
  rw [hci]
  unfold colIndexOk
  dsimp only
  rw [hci, lookupA_insertA_self]
  rw [Bool.and_eq_true]
  constructor
  · apply List.all_eq_true.mpr
    intro vp hvp
    apply List.all_eq_true.mpr
    intro p hp
    exact h1 vp hvp p hp
  · exact decide_eq_true h2

theorem lookupA_mem {α : Type} {m : List (String × α)} {k : String} {v : α}
    (h : lookupA m k = some v) : (k, v) ∈ m := by
  unfold lookupA at h
  cases hf : m.find? (fun p => p.1 == k) with
  | none => rw [hf] at h; exact Option.noConfusion h
  | some p =>
      rw [hf] at h
      injection h with h
      have hmem := List.mem_of_find?_eq_some hf
      have hbeq := List.find?_some hf
      have hk : p.1 = k := eq_of_beq hbeq
      have hpe : p = (k, v) := by rw [← hk, ← h]
      rw [← hpe]
      exact hmem

theorem colIndexOk_elim {t : Table} {c : String} {m : Nat} (h : colIndexOk t c m = true) :
    ∃ ci b, t.columns.findIdx? (· == c) = some ci ∧ lookupA t.indexes c = some b ∧
      (∀ vp ∈ b, ∀ p ∈ vp.2, bucketEntryOk t.rows ci vp.1 p = true) ∧
      List.Perm ((b.map Prod.snd).flatten) (List.range m) := by
  unfold colIndexOk at h
  cases hci : t.columns.findIdx? (· == c) with
  | none => rw [hci] at h; exact Bool.noConfusion h
  | some ci =>
      rw [hci] at h
      cases hlk : lookupA t.indexes c with
      | none => rw [hlk] at h; exact Bool.noConfusion h
      | some b =>
          rw [hlk] at h
          rw [Bool.and_eq_true] at h
          obtain ⟨h1, h2⟩ := h
          refine ⟨ci, b, rfl, rfl, ?_, of_decide_eq_true h2⟩
          intro vp hvp p hp
          exact List.all_eq_true.mp (List.all_eq_true.mp h1 vp hvp) p hp

theorem colIndexOk_intro {t : Table} {c : String} {m : Nat} (ci : Nat) (b : Buckets)
    (h1 : t.columns.findIdx? (· == c) = some ci) (h2 : lookupA t.indexes c = some b)
    (h3 : ∀ vp ∈ b, ∀ p ∈ vp.2, bucketEntryOk t.rows ci vp.1 p = true)
    (h4 : List.Perm ((b.map Prod.snd).flatten) (List.range m)) :
    colIndexOk t c m = true := by
  unfold colIndexOk
  rw [h1, h2]
  rw [Bool.and_eq_true]
  exact ⟨List.all_eq_true.mpr fun vp hvp => List.all_eq_true.mpr fun p hp => h3 vp hvp p hp,
    decide_eq_true h4⟩

theorem bucketEntryOk_append (R : List Row) (a : Row) (ci : Nat) (v : String) (p : Nat)
    (h : bucketEntryOk R ci v p = true) : bucketEntryOk (R ++ [a]) ci v p = true := by
  unfold bucketEntryOk at h ⊢
  cases hr : R.get? p with
  | none => rw [hr] at h; exact Bool.noConfusion h
  | some row =>
      rw [hr] at h
      have hp : p < R.length := by
        by_contra hc
        rw [List.get?_eq_none.mpr (by omega)] at hr
        exact Option.noConfusion hr
      rw [List.get?_append hp, hr]
      exact h

theorem colIndexOk_append {t t2 : Table} {c : String} {a : Row} (m : Nat)
    (hrows : t2.rows = t.rows ++ [a]) (hcols : t2.columns = t.columns)
    (hlk : lookupA t2.indexes c = lookupA t.indexes c)
    (h : colIndexOk t c m = true) : colIndexOk t2 c m = true := by
  obtain ⟨ci, b, hci, hb, hall, hperm⟩ := colIndexOk_elim h
  refine colIndexOk_intro ci b (by rw [hcols]; exact hci) (by rw [hlk]; exact hb) ?_ hperm
  intro vp hvp p hp
  rw [hrows]
  exact bucketEntryOk_append _ _ _ _ _ (hall vp hvp p hp)

theorem foldBuild_lookup_ne (L : List String) : ∀ (t : Table) (c : String), c ∉ L →
    lookupA (L.foldl buildIndexForColumn t).indexes c = lookupA t.indexes c := by
  induction L with
  | nil => intro t c _; rfl
  | cons c0 rest ih =>
      intro t c hc
      rw [List.foldl_cons]
      have h1 : c ∉ rest := fun h => hc (List.mem_cons_of_mem _ h)
      have h2 : c ≠ c0 := fun h => hc (h ▸ List.mem_cons_self _ _)
      rw [ih (buildIndexForColumn t c0) c h1]
      exact buildIndexForColumn_lookup_ne t c0 c h2

theorem foldBuild_coh (L : List String) : ∀ (t : Table) (c : String) (ci : Nat), c ∈ L →
    t.columns.findIdx? (· == c) = some ci →
    (∀ row ∈ t.rows, ci < row.length) →
    colIndexOk (L.foldl buildIndexForColumn t) c t.rows.length = true := by
  induction L with
  | nil => intro t c ci hc _ _; exact absurd hc (List.not_mem_nil c)
  | cons c0 rest ih =>
      intro t c ci hc hci harity
      rw [List.foldl_cons]
      obtain ⟨s1, s2, s3, s4⟩ := buildIndexForColumn_skel t c0
      by_cases hmem : c ∈ rest
      · have hres := ih (buildIndexForColumn t c0) c ci hmem (by rw [s2]; exact hci)
          (by rw [s1]; exact harity)
        rw [s1] at hres
        exact hres
      · have hceq : c = c0 := by
          rcases List.mem_cons.mp hc with h | h
          · exact h
          · exact absurd h hmem
        subst hceq
        have hok : colIndexOk (buildIndexForColumn t c) c t.rows.length = true :=
          buildIndexForColumn_ok t c ci hci harity
        obtain ⟨f1, f2, f3, f4⟩ := foldBuild_skel rest (buildIndexForColumn t c)
        have hlk := foldBuild_lookup_ne rest (buildIndexForColumn t c) c hmem
        rw [colIndexOk_congr t.rows.length f1 f2 hlk]
        exact hok

theorem rebuild_wf (t : Table)
    (harity : ∀ row ∈ t.rows, row.length = t.columns.length)
    (hnodup : t.indexedColumns.Nodup)
    (hfound : ∀ c ∈ t.indexedColumns, ∃ ci, t.columns.findIdx? (· == c) = some ci) :
    TableWF (rebuildAllIndexes t) := by
  obtain ⟨r1, r2, r3, r4⟩ := rebuildAllIndexes_skel t
  refine ⟨?_, ?_, ?_⟩
  · rw [r1, r2]; exact harity
  · rw [r4]; exact hnodup
  · intro c hc
    rw [r4] at hc
    obtain ⟨ci, hci⟩ := hfound c hc
    have hlt : ci < t.columns.length := findIdx?_some_lt _ _ _ hci
    have harr : ∀ row ∈ t.rows, ci < row.length := by
      intro row hrow
      rw [harity row hrow]
      exact hlt
    have hres := foldBuild_coh t.indexedColumns t c ci hc hci harr
    rw [r1]
    exact hres

theorem loadTable_wf (t : Table) (h : TableWF t) : TableWF (loadTable (diskOfTable t)) := by
  obtain ⟨h1, h2, h3⟩ := h
  refine rebuild_wf _ h1 h2 ?_
  intro c hc
  obtain ⟨ci, b, hci, _, _, _⟩ := colIndexOk_elim (h3 c hc)
  exact ⟨ci, hci⟩

theorem applyIndexOnInsertCol_lookup_ne (row : Row) (ri : Nat) (t : Table) (c c2 : String)
    (h : c2 ≠ c) :
    lookupA (applyIndexOnInsertCol row ri t c).indexes c2 = lookupA t.indexes c2 := by
  unfold applyIndexOnInsertCol
  cases t.columns.findIdx? (· == c) with
  | none => rfl
  | some ci =>
      dsimp only
      cases row.get? ci with
      | none => rfl
      | some v => exact lookupA_insertA_ne _ _ _ _ h

theorem foldIns_lookup_ne (L : List String) (row : Row) (ri : Nat) :
    ∀ (t : Table) (c : String), c ∉ L →
    lookupA ((L.foldl (applyIndexOnInsertCol row ri) t)).indexes c = lookupA t.indexes c := by
  induction L with
  | nil => intro t c _; rfl
  | cons c0 rest ih =>
      intro t c hc
      rw [List.foldl_cons]
      have h1 : c ∉ rest := fun h => hc (List.mem_cons_of_mem _ h)
      have h2 : c ≠ c0 := fun h => hc (h ▸ List.mem_cons_self _ _)
      rw [ih (applyIndexOnInsertCol row ri t c0) c h1]
      exact applyIndexOnInsertCol_lookup_ne row ri t c0 c h2

theorem applyIndexOnInsertCol_ok (t : Table) (R : List Row) (a : Row) (c : String)
    (hrows : t.rows = R ++ [a])
    (hlen : t.columns.length ≤ a.length)
    (hok : colIndexOk t c R.length = true) :
    colIndexOk (applyIndexOnInsertCol a R.length t c) c (R.length + 1) = true := by
  obtain ⟨ci, b, hci, hb, hall, hperm⟩ := colIndexOk_elim hok
  have hcilt : ci < t.columns.length := findIdx?_some_lt _ _ _ hci
  cases hv : a.get? ci with
  | none =>
      have h1 := List.get?_eq_none.mp hv
      exact absurd hlen (by omega)
  | some v =>
      unfold applyIndexOnInsertCol
      rw [hci]
      dsimp only
      rw [hv, hb]
      simp only [Option.getD_some]
      refine colIndexOk_intro ci (bucketAdd b v R.length) hci
        (lookupA_insertA_self _ _ _) ?_ ?_
      · intro vp hvp p hp
        show bucketEntryOk t.rows ci vp.1 p = true
        rcases bucketAdd_sound b v R.length vp hvp p hp with hold | hnew
        · obtain ⟨vp0, hm0, he0, hp0⟩ := hold
          have hres := hall vp0 hm0 p hp0
          rw [he0] at hres
          exact hres
        · obtain ⟨hpn, hvv⟩ := hnew
          subst hpn
          rw [hvv]
          unfold bucketEntryOk
          rw [hrows, List.get?_concat_length]
          rw [List.get?_eq_getElem?] at hv
          simp [hv]
      · refine (bucketAdd_flatten_perm b v R.length).trans ?_
        rw [List.range_succ]
        exact hperm.append_right [R.length]

theorem foldIns_coh (L : List String) : ∀ (t : Table) (R : List Row) (a : Row),
    t.rows = R ++ [a] →
    t.columns.length ≤ a.length →
    L.Nodup →
    (∀ c ∈ L, colIndexOk t c R.length = true) →
    ∀ c ∈ L,
      colIndexOk (L.foldl (applyIndexOnInsertCol a R.length) t) c (R.length + 1) = true := by
  induction L with
  | nil => intro t R a _ _ _ _ c hc; exact absurd hc (List.not_mem_nil c)
  | cons c0 rest ih =>
      intro t R a hrows hlen hnodup hbase c hc
      rw [List.foldl_cons]
      rw [List.nodup_cons] at hnodup
      obtain ⟨hc0rest, hnodup2⟩ := hnodup
      obtain ⟨s1, s2, s3, s4⟩ := applyIndexOnInsertCol_skel a R.length t c0
      have hbase2 : ∀ c2 ∈ rest,
          colIndexOk (applyIndexOnInsertCol a R.length t c0) c2 R.length = true := by
        intro c2 hc2
        have hne : c2 ≠ c0 := fun h => hc0rest (h ▸ hc2)
        rw [colIndexOk_congr R.length s1 s2
          (applyIndexOnInsertCol_lookup_ne a R.length t c0 c2 hne)]
        exact hbase c2 (List.mem_cons_of_mem _ hc2)
      rcases List.mem_cons.mp hc with hceq | hcrest
      · subst hceq
        have hok1 : colIndexOk (applyIndexOnInsertCol a R.length t c) c (R.length + 1) =
            true :=
          applyIndexOnInsertCol_ok t R a c hrows hlen (hbase c (List.mem_cons_self _ _))
        obtain ⟨f1, f2, f3, f4⟩ :=
          foldIns_skel rest a R.length (applyIndexOnInsertCol a R.length t c)
        have hlk := foldIns_lookup_ne rest a R.length (applyIndexOnInsertCol a R.length t c)
          c hc0rest
        rw [colIndexOk_congr (R.length + 1) f1 f2 hlk]
        exact hok1
      · exact ih (applyIndexOnInsertCol a R.length t c0) R a (s1.trans hrows)
          (by rw [s2]; exact hlen) hnodup2 hbase2 c hcrest

theorem insert_table_wf (table : Table) (values : Row)
    (hwf : TableWF table) (hlen : values.length = table.columns.length) :
    TableWF (applyIndexesOnInsert { table with rows := table.rows ++ [values] }
      ((table.rows ++ [values]).length - 1)) := by
  obtain ⟨h1, h2, h3⟩ := hwf
  have hk : (table.rows ++ [values]).length - 1 = table.rows.length := by simp
  rw [hk]
  unfold applyIndexesOnInsert
  dsimp only
  rw [List.get?_concat_length]
  dsimp only
  obtain ⟨f1, f2, f3, f4⟩ := foldIns_skel table.indexedColumns values table.rows.length
    { table with rows := table.rows ++ [values] }
  refine ⟨?_, ?_, ?_⟩
  · rw [f1, f2]
    dsimp only
    intro row hrow
    rcases List.mem_append.mp hrow with h | h
    · exact h1 row h
    · rw [List.mem_singleton.mp h]
      exact hlen
  · rw [f4]
    exact h2
  · intro c hc
    rw [f4] at hc
    dsimp only at hc
    have hbase : ∀ c2 ∈ table.indexedColumns,
        colIndexOk { table with rows := table.rows ++ [values] } c2 table.rows.length =
          true := by
      intro c2 hc2
      exact colIndexOk_append table.rows.length rfl rfl rfl (h3 c2 hc2)
    have hres := foldIns_coh table.indexedColumns
      { table with rows := table.rows ++ [values] } table.rows values rfl
      (by dsimp only; omega) h2 hbase c hc
    have hcount : (table.indexedColumns.foldl (applyIndexOnInsertCol values table.rows.length)
        { table with rows := table.rows ++ [values] }).rows.length =
        table.rows.length + 1 := by
      rw [f1]
      dsimp only
      rw [List.length_append]
      rfl
    rw [hcount]
    exact hres

theorem update_table_wf (table : Table) (i : Nat) (values : Row)
    (hwf : TableWF table) (hlen : values.length = table.columns.length) :
    TableWF (rebuildAllIndexes { table with rows := table.rows.set i values }) := by
  obtain ⟨h1, h2, h3⟩ := hwf
  refine rebuild_wf _ ?_ h2 ?_
  · intro row hrow
    dsimp only at hrow ⊢
    rcases List.mem_or_eq_of_mem_set hrow with h | h
    · exact h1 row h
    · rw [h]; exact hlen
  · intro c hc
    obtain ⟨ci, b, hci, _, _, _⟩ := colIndexOk_elim (h3 c hc)
    exact ⟨ci, hci⟩

theorem delete_table_wf (table : Table) (i : Nat) (hwf : TableWF table) :
    TableWF (rebuildAllIndexes { table with rows := table.rows.eraseIdx i }) := by
  obtain ⟨h1, h2, h3⟩ := hwf
  refine rebuild_wf _ ?_ h2 ?_
  · intro row hrow
    dsimp only at hrow ⊢
    exact h1 row ((table.rows.eraseIdx_sublist i).subset hrow)
  · intro c hc
    obtain ⟨ci, b, hci, _, _, _⟩ := colIndexOk_elim (h3 c hc)
    exact ⟨ci, hci⟩

theorem buildIndexForColumn_wf_aux (t1 : Table) (cn : String) (ci : Nat)
    (harity : ∀ row ∈ t1.rows, row.length = t1.columns.length)
    (hnodup : t1.indexedColumns.Nodup)
    (hci : t1.columns.findIdx? (· == cn) = some ci)
    (hcoh : ∀ c ∈ t1.indexedColumns, c ≠ cn → colIndexOk t1 c t1.rows.length = true) :
    TableWF (buildIndexForColumn t1 cn) := by
  obtain ⟨s1, s2, s3, s4⟩ := buildIndexForColumn_skel t1 cn
  have hcilt : ci < t1.columns.length := findIdx?_some_lt _ _ _ hci
  refine ⟨?_, ?_, ?_⟩
  · rw [s1, s2]; exact harity
  · rw [s4]; exact hnodup
  · intro c hc
    rw [s4] at hc
    by_cases hceq : c = cn
    · subst hceq
      have hok := buildIndexForColumn_ok t1 c ci hci
        (fun row hrow => by rw [harity row hrow]; exact hcilt)
      rw [s1]
      exact hok
    · have hres := hcoh c hc hceq
      rw [s1]
      rw [colIndexOk_congr t1.rows.length s1 s2 (buildIndexForColumn_lookup_ne t1 cn c hceq)]
      exact hres

theorem createIndex_table_wf (table : Table) (cn : String) (ci : Nat)
    (hwf : TableWF table) (hci : table.columns.findIdx? (· == cn) = some ci) :
    TableWF (buildIndexForColumn
      (if table.indexedColumns.contains cn then table
       else { table with indexedColumns := table.indexedColumns ++ [cn] }) cn) := by
  obtain ⟨h1, h2, h3⟩ := hwf
  by_cases hcont : table.indexedColumns.contains cn = true
  · rw [if_pos hcont]
    exact buildIndexForColumn_wf_aux table cn ci h1 h2 hci (fun c hc _ => h3 c hc)
  · rw [if_neg hcont]
    have hnm : cn ∉ table.indexedColumns := by
      intro hm
      exact hcont (List.elem_eq_true_of_mem hm)
    refine buildIndexForColumn_wf_aux _ cn ci h1 ?_ hci ?_
    · dsimp only
      exact (List.perm_append_singleton cn table.indexedColumns).nodup_iff.mpr
        (List.nodup_cons.mpr ⟨hnm, h2⟩)
    · intro c hc hne
      dsimp only at hc
      rcases List.mem_append.mp hc with hcm | hcm
      · exact h3 c hcm
      · exact absurd (List.mem_singleton.mp hcm) hne

theorem CreateTable_wf (db : Database) (n : String) (cols : List String) (h : DBWF db) :
    DBWF (db.CreateTable n cols).2 := by
  unfold Database.CreateTable
  dsimp only
  cases lookupA db.tables (goToLower n) with
  | some t => exact h
  | none =>
      dsimp only
      intro p hp
      rcases insertA_mem _ _ _ p hp with hnew | hold
      · rw [hnew]
        exact ⟨fun row hrow => absurd hrow (List.not_mem_nil _), List.nodup_nil,
          fun c hc => absurd hc (List.not_mem_nil _)⟩
      · exact h p hold

theorem Insert_wf (db : Database) (tn : String) (vs : List String) (h : DBWF db) :
    DBWF (db.Insert tn vs).2 := by
  unfold Database.Insert
  dsimp only
  cases hlk : lookupA db.tables (goToLower tn) with
  | none => exact h
  | some table =>
      dsimp only
      by_cases hg : vs.length ≠ table.columns.length
      · rw [if_pos hg]
        exact h
      · rw [if_neg hg]
        push_neg at hg
        dsimp only
        intro p hp
        rcases insertA_mem _ _ _ p hp with hnew | hold
        · rw [hnew]
          exact insert_table_wf table vs (h (goToLower tn, table) (lookupA_mem hlk)) hg
        · exact h p hold

theorem Update_wf (db : Database) (tn : String) (ri : Int) (vs : List String) (h : DBWF db) :
    DBWF (db.Update tn ri vs).2 := by
  unfold Database.Update
  dsimp only
  cases hlk : lookupA db.tables (goToLower tn) with
  | none => exact h
  | some table =>
      dsimp only
      by_cases hb : ri < 0 ∨ ri ≥ (table.rows.length : Int)
      · rw [if_pos hb]
        exact h
      · rw [if_neg hb]
        by_cases hg : vs.length ≠ table.columns.length
        · rw [if_pos hg]
          exact h
        · rw [if_neg hg]
          push_neg at hg
          dsimp only
          intro p hp
          rcases insertA_mem _ _ _ p hp with hnew | hold
          · rw [hnew]
            exact update_table_wf table ri.toNat vs
              (h (goToLower tn, table) (lookupA_mem hlk)) hg
          · exact h p hold

theorem Delete_wf (db : Database) (tn : String) (ri : Int) (h : DBWF db) :
    DBWF (db.Delete tn ri).2 := by
  unfold Database.Delete
  dsimp only
  cases hlk : lookupA db.tables (goToLower tn) with
  | none => exact h
  | some table =>
      dsimp only
      by_cases hb : ri < 0 ∨ ri ≥ (table.rows.length : Int)
      · rw [if_pos hb]
        exact h
      · rw [if_neg hb]
        dsimp only
        intro p hp
        rcases insertA_mem _ _ _ p hp with hnew | hold
        · rw [hnew]
          exact delete_table_wf table ri.toNat (h (goToLower tn, table) (lookupA_mem hlk))
        · exact h p hold

theorem DropTable_wf (db : Database) (tn : String) (h : DBWF db) :
    DBWF (db.DropTable tn).2 := by
  unfold Database.DropTable
  dsimp only
  cases lookupA db.tables (goToLower tn) with
  | none => exact h
  | some t =>
      dsimp only
      intro p hp
      exact h p (removeA_mem _ _ p hp)

theorem CreateIndex_wf (db : Database) (tn cn : String) (h : DBWF db) :
    DBWF (db.CreateIndex tn cn).2 := by
  unfold Database.CreateIndex
  dsimp only
  cases hlk : lookupA db.tables (goToLower tn) with
  | none => exact h
  | some table =>
      dsimp only
      cases hci : table.columns.findIdx? (· == goTrim cn) with
      | none => exact h
      | some ci =>
          dsimp only
          intro p hp
          rcases insertA_mem _ _ _ p hp with hnew | hold
          · rw [hnew]
            exact createIndex_table_wf table (goTrim cn) ci
              (h (goToLower tn, table) (lookupA_mem hlk)) hci
          · exact h p hold

theorem runDirect1_wf (db : Database) (c : DirectCall) (h : DBWF db) :
    DBWF (runDirect1 db c).2 := by
  cases c with
  | createTable n cols => exact CreateTable_wf db n cols h
  | insertRow tn vs => exact Insert_wf db tn vs h
  | updateRow tn ri vs => exact Update_wf db tn ri vs h
  | deleteRow tn ri => exact Delete_wf db tn ri h
  | dropTable tn => exact DropTable_wf db tn h
  | createIndex tn cn => exact CreateIndex_wf db tn cn h

theorem runDirect_wf (cs : List DirectCall) :
    ∀ db : Database, DBWF db → DBWF (runDirect db cs) := by
  induction cs with
  | nil => intro db h; exact h
  | cons c rest ih =>
      intro db h
      unfold runDirect
      rw [List.foldl_cons]
      exact ih _ (runDirect1_wf db c h)

theorem emptyDatabase_wf : DBWF emptyDatabase :=
  fun p hp => absurd hp (List.not_mem_nil p)

/-- C6: index coherence.  Every state reachable from the empty engine by
direct table-store operations (CreateTable, Insert, Update, Delete,
DropTable, CreateIndex) has only well-formed tables: every row has schema
arity and, for every indexed column `c` of every table, every bucket entry
`(v, p)` of the index on `c` points at an existing row whose `c`-cell is
`v`, and the positions collected across the buckets of `c` are exactly
`0 .. |rows| - 1` (so their count is `|rows|`).  Loading a table file
written for a well-formed table at startup rebuilds its indexes into the
same coherent shape. -/
theorem C6_index_coherence :
    (∀ cs : List DirectCall, DBWF (runDirect emptyDatabase cs)) ∧
    (∀ t : Table, TableWF t → TableWF (loadTable (diskOfTable t))) :=
  ⟨fun cs => runDirect_wf cs emptyDatabase emptyDatabase_wf,
   fun t h => loadTable_wf t h⟩

theorem C6_index_coherence_witness :
    DBWF (runDirect emptyDatabase
      [.createTable "t" ["a", "b"], .insertRow "t" ["x", "y"], .createIndex "t" "a",
       .insertRow "t" ["x", "z"], .createIndex "t" "b", .updateRow "t" 0 ["w", "y"],
       .deleteRow "t" 1]) ∧
    TableWF cohTable ∧ TableWF (loadTable (diskOfTable cohTable)) :=
  ⟨C6_index_coherence.1 _, by unfold TableWF; decide,
   C6_index_coherence.2 cohTable (by unfold TableWF; decide)⟩

theorem readNum_encNum (n : Nat) (rest : List Nat) (h : n < 4294967296) :
    readNum (encNum n ++ rest) = some (n, rest) := by
  unfold encNum le32 readNum
  simp only [List.cons_append, List.nil_append]
  have hd : de32 (n % 256) (n / 256 % 256) (n / 65536 % 256) (n / 16777216 % 256) = n := by
    unfold de32
    omega
  rw [hd]

theorem readText_encText (s : String) (rest : List Nat)
    (h : s.toList.length < 4294967296) :
    readText (encText s ++ rest) = some (s, rest) := by
  unfold encText readText
  rw [List.append_assoc, readNum_encNum _ _ h]
  dsimp only
  rw [if_neg (by rw [List.length_append, List.length_map]; omega)]
  rw [List.take_left' (List.length_map _ _), List.drop_left' (List.length_map _ _)]
  rw [List.map_map]
  have hm : ∀ l : List Char, List.map (Char.ofNat ∘ Char.toNat) l = l := by
    intro l
    induction l with
    | nil => rfl
    | cons c cs ih => simp [ih, Char.ofNat_toNat]
  rw [hm]
  rfl

theorem readTexts_flatten (xs : List String) : ∀ (rest : List Nat),
    xs.all textOk = true →
    readTexts xs.length ((xs.map encText).flatten ++ rest) = some (xs, rest) := by
  induction xs with
  | nil =>
      intro rest _
      simp [readTexts]
  | cons s ss ih =>
      intro rest hall
      rw [List.all_cons, Bool.and_eq_true] at hall
      obtain ⟨h1, h2⟩ := hall
      have hs : s.toList.length < 4294967296 := of_decide_eq_true h1
      simp only [List.map_cons, List.flatten_cons, List.length_cons]
      rw [List.append_assoc]
      unfold readTexts
      rw [readText_encText s _ hs]
      dsimp only
      rw [ih rest h2]

theorem readTextList_encTexts (xs : List String) (rest : List Nat)
    (h : textsOk xs = true) :
    readTextList (encTexts xs ++ rest) = some (xs, rest) := by
  unfold textsOk at h
  rw [Bool.and_eq_true] at h
  obtain ⟨h1, h2⟩ := h
  unfold encTexts readTextList
  rw [List.append_assoc, readNum_encNum _ _ (of_decide_eq_true h1)]
  dsimp only
  exact readTexts_flatten xs rest h2

theorem decode_encode (e : WalEntry) (h : entryOk e = true) :
    decodeEntryPayload (encodeEntryPayload e) = some e := by
  unfold entryOk at h
  rw [Bool.and_eq_true] at h
  obtain ⟨hplen, hf⟩ := h
  cases e with
  | createTable t cols =>
      rw [Bool.and_eq_true] at hf
      obtain ⟨h1, h2⟩ := hf
      unfold encodeEntryPayload decodeEntryPayload
      dsimp only
      rw [readText_encText t _ (of_decide_eq_true h1)]
      dsimp only
      rw [show encTexts cols = encTexts cols ++ [] from (List.append_nil _).symm,
        readTextList_encTexts cols [] h2]
  | insertRow t vs =>
      rw [Bool.and_eq_true] at hf
      obtain ⟨h1, h2⟩ := hf
      unfold encodeEntryPayload decodeEntryPayload
      dsimp only
      rw [readText_encText t _ (of_decide_eq_true h1)]
      dsimp only
      rw [show encTexts vs = encTexts vs ++ [] from (List.append_nil _).symm,
        readTextList_encTexts vs [] h2]
  | updateRow t ri vs =>
      rw [Bool.and_eq_true, Bool.and_eq_true] at hf
      obtain ⟨⟨h1, h2⟩, h3⟩ := hf
      unfold encodeEntryPayload decodeEntryPayload
      dsimp only
      rw [List.append_assoc, readText_encText t _ (of_decide_eq_true h1)]
      dsimp only
      rw [readNum_encNum _ _ (of_decide_eq_true h2)]
      dsimp only
      rw [show encTexts vs = encTexts vs ++ [] from (List.append_nil _).symm,
        readTextList_encTexts vs [] h3]
  | deleteRow t ri =>
      rw [Bool.and_eq_true] at hf
      obtain ⟨h1, h2⟩ := hf
      unfold encodeEntryPayload decodeEntryPayload
      dsimp only
      rw [readText_encText t _ (of_decide_eq_true h1)]
      dsimp only
      rw [show encNum ri = encNum ri ++ [] from (List.append_nil _).symm,
        readNum_encNum _ _ (of_decide_eq_true h2)]
  | dropTable t =>
      unfold encodeEntryPayload decodeEntryPayload
      dsimp only
      rw [show encText t = encText t ++ [] from (List.append_nil _).symm,
        readText_encText t _ (of_decide_eq_true hf)]
  | checkpoint => rfl
  | beginTransaction iso =>
      unfold encodeEntryPayload decodeEntryPayload
      dsimp only
      rw [show encNum iso = encNum iso ++ [] from (List.append_nil _).symm,
        readNum_encNum _ _ (of_decide_eq_true hf)]
  | rollbackTransaction txid =>
      unfold encodeEntryPayload decodeEntryPayload
      dsimp only
      rw [show encText txid = encText txid ++ [] from (List.append_nil _).symm,
        readText_encText txid _ (of_decide_eq_true hf)]
  | savepoint txid n i =>
      rw [Bool.and_eq_true, Bool.and_eq_true] at hf
      obtain ⟨⟨h1, h2⟩, h3⟩ := hf
      unfold encodeEntryPayload decodeEntryPayload
      dsimp only
      rw [List.append_assoc, readText_encText txid _ (of_decide_eq_true h1)]
      dsimp only
      rw [readText_encText n _ (of_decide_eq_true h2)]
      dsimp only
      rw [show encNum i = encNum i ++ [] from (List.append_nil _).symm,
        readNum_encNum _ _ (of_decide_eq_true h3)]
  | rollbackToSavepoint txid n i =>
      rw [Bool.and_eq_true, Bool.and_eq_true] at hf
      obtain ⟨⟨h1, h2⟩, h3⟩ := hf
      unfold encodeEntryPayload decodeEntryPayload
      dsimp only
      rw [List.append_assoc, readText_encText txid _ (of_decide_eq_true h1)]
      dsimp only
      rw [readText_encText n _ (of_decide_eq_true h2)]
      dsimp only
      rw [show encNum i = encNum i ++ [] from (List.append_nil _).symm,
        readNum_encNum _ _ (of_decide_eq_true h3)]

theorem encodeEntryPayload_pos (e : WalEntry) : 0 < (encodeEntryPayload e).length := by
  cases e <;> simp [encodeEntryPayload]

theorem replayBytes_nil (db : Database) (buffered : Nat) :
    WM.replayBytes db [] buffered = (db, none) := by
  rw [WM.replayBytes.eq_def]

theorem replayBytes_short (db : Database) (tail : List Nat) (buffered : Nat)
    (h1 : tail ≠ []) (h2 : tail.length < 4) :
    WM.replayBytes db tail buffered =
      (db, some "failed to read WAL entry length: unexpected EOF") := by
  cases tail with
  | nil => exact absurd rfl h1
  | cons a t1 =>
      cases t1 with
      | nil => rw [WM.replayBytes.eq_def]
      | cons b t2 =>
          cases t2 with
          | nil => rw [WM.replayBytes.eq_def]
          | cons c t3 =>
              cases t3 with
              | nil => rw [WM.replayBytes.eq_def]
              | cons d t4 =>
                  exfalso
                  simp only [List.length_cons] at h2
                  omega

theorem de32_le32_parts (L : Nat) (h : L < 4294967296) :
    de32 (L % 256) (L / 256 % 256) (L / 65536 % 256) (L / 16777216 % 256) = L := by
  unfold de32
  omega

theorem entryOk_len_lt (e : WalEntry) (he : entryOk e = true) :
    (encodeEntryPayload e).length < 4294967296 := by
  unfold entryOk at he
  rw [Bool.and_eq_true] at he
  exact of_decide_eq_true he.1

theorem frame_shape (e : WalEntry) (R : List Nat) :
    encodeFrame e ++ R
      = (encodeEntryPayload e).length % 256
        :: ((encodeEntryPayload e).length / 256 % 256)
        :: ((encodeEntryPayload e).length / 65536 % 256)
        :: ((encodeEntryPayload e).length / 16777216 % 256)
        :: (encodeEntryPayload e ++ R) := by
  unfold encodeFrame le32
  simp [List.append_assoc]

theorem replayBytes_frame_buffered (e : WalEntry) (he : entryOk e = true) (R : List Nat)
    (db : Database) :
    WM.replayBytes db (encodeFrame e ++ R) (encodeFrame e ++ R).length =
      WM.replayBytes (WM.replayEntry db e) R R.length := by
  have hlen := entryOk_len_lt e he
  have hpos := encodeEntryPayload_pos e
  rw [frame_shape]
  rw [WM.replayBytes.eq_def]
  dsimp only
  simp only [List.length_cons]
  rw [if_pos (show 4 ≤ (encodeEntryPayload e ++ R).length + 1 + 1 + 1 + 1 by omega)]
  rw [de32_le32_parts _ hlen]
  rw [show (encodeEntryPayload e ++ R).length + 1 + 1 + 1 + 1 - 4
      = (encodeEntryPayload e ++ R).length from by omega]
  rw [if_pos (show 0 < (encodeEntryPayload e ++ R).length ∨
      (encodeEntryPayload e).length = 0 from Or.inl (by rw [List.length_append]; omega))]
  rw [show min (encodeEntryPayload e).length (encodeEntryPayload e ++ R).length
      = (encodeEntryPayload e).length from by rw [List.length_append]; omega]
  rw [List.take_left, Nat.sub_self, List.replicate_zero, List.append_nil]
  rw [decode_encode e he]
  dsimp only
  rw [List.drop_left]
  rw [show (encodeEntryPayload e ++ R).length - (encodeEntryPayload e).length
      = R.length from by rw [List.length_append]; omega]

theorem replayBytes_frame_start (e : WalEntry) (he : entryOk e = true) (R : List Nat)
    (db : Database) (hsmall : (encodeEntryPayload e ++ R).length + 4 ≤ 4096) :
    WM.replayBytes db (encodeFrame e ++ R) 0 =
      WM.replayBytes (WM.replayEntry db e) R R.length := by
  have hlen := entryOk_len_lt e he
  have hpos := encodeEntryPayload_pos e
  rw [frame_shape]
  rw [WM.replayBytes.eq_def]
  dsimp only
  rw [if_neg (show ¬ 4 ≤ 0 by omega)]
  rw [de32_le32_parts _ hlen]
  rw [show min 4096 ((encodeEntryPayload e ++ R).length + 4 - 0) - (4 - 0)
      = (encodeEntryPayload e ++ R).length from by omega]
  rw [if_pos (show 0 < (encodeEntryPayload e ++ R).length ∨
      (encodeEntryPayload e).length = 0 from Or.inl (by rw [List.length_append]; omega))]
  rw [show min (encodeEntryPayload e).length (encodeEntryPayload e ++ R).length
      = (encodeEntryPayload e).length from by rw [List.length_append]; omega]
  rw [List.take_left, Nat.sub_self, List.replicate_zero, List.append_nil]
  rw [decode_encode e he]
  dsimp only
  rw [List.drop_left]
  rw [show (encodeEntryPayload e ++ R).length - (encodeEntryPayload e).length
      = R.length from by rw [List.length_append]; omega]

theorem replayBytes_frame_start_big (e : WalEntry) (he : entryOk e = true) (R : List Nat)
    (db : Database) (hbig : 4096 ≤ (encodeEntryPayload e ++ R).length + 4)
    (hfit : (encodeEntryPayload e).length ≤ 4092) :
    WM.replayBytes db (encodeFrame e ++ R) 0 =
      WM.replayBytes (WM.replayEntry db e) R
        (4092 - (encodeEntryPayload e).length) := by
  have hlen := entryOk_len_lt e he
  have hpos := encodeEntryPayload_pos e
  rw [frame_shape]
  rw [WM.replayBytes.eq_def]
  dsimp only
  rw [if_neg (show ¬ 4 ≤ 0 by omega)]
  rw [de32_le32_parts _ hlen]
  rw [show min 4096 ((encodeEntryPayload e ++ R).length + 4 - 0) - (4 - 0)
      = 4092 from by omega]
  rw [if_pos (show 0 < 4092 ∨ (encodeEntryPayload e).length = 0 from
      Or.inl (by omega))]
  rw [show min (encodeEntryPayload e).length 4092
      = (encodeEntryPayload e).length from by omega]
  rw [List.take_left, Nat.sub_self, List.replicate_zero, List.append_nil]
  rw [decode_encode e he]
  dsimp only
  rw [List.drop_left]

theorem replayBytes_file_buffered (tail : List Nat) (res : Option String)
    (htail : ∀ db, WM.replayBytes db tail tail.length = (db, res)) :
    ∀ (es : List WalEntry), es.all entryOk = true →
    ∀ db, WM.replayBytes db (encodeWalFile es ++ tail)
        (encodeWalFile es ++ tail).length = (WM.ReplayWAL db es, res) := by
  intro es
  induction es with
  | nil =>
      intro _ db
      unfold encodeWalFile
      simp only [List.map_nil, List.flatten_nil, List.nil_append]
      exact htail db
  | cons e es2 ih =>
      intro h db
      rw [List.all_cons, Bool.and_eq_true] at h
      obtain ⟨he, hes⟩ := h
      have hsplit : encodeWalFile (e :: es2) ++ tail
          = encodeFrame e ++ (encodeWalFile es2 ++ tail) := by
        unfold encodeWalFile
        simp [List.append_assoc]
      rw [hsplit, replayBytes_frame_buffered e he _ db, ih hes (WM.replayEntry db e)]
      unfold WM.ReplayWAL
      rw [List.foldl_cons]

theorem replayBytes_file_start (tail : List Nat) (res : Option String)
    (htail : ∀ db, WM.replayBytes db tail tail.length = (db, res))
    (htail0 : ∀ db, WM.replayBytes db tail 0 = (db, res)) :
    ∀ (es : List WalEntry), es.all entryOk = true →
    ∀ db, (encodeWalFile es ++ tail).length ≤ 4096 →
    WM.replayBytes db (encodeWalFile es ++ tail) 0 = (WM.ReplayWAL db es, res) := by
  intro es
  cases es with
  | nil =>
      intro _ db _
      unfold encodeWalFile
      simp only [List.map_nil, List.flatten_nil, List.nil_append]
      exact htail0 db
  | cons e es2 =>
      intro h db hlen
      rw [List.all_cons, Bool.and_eq_true] at h
      obtain ⟨he, hes⟩ := h
      have hsplit : encodeWalFile (e :: es2) ++ tail
          = encodeFrame e ++ (encodeWalFile es2 ++ tail) := by
        unfold encodeWalFile
        simp [List.append_assoc]
      rw [hsplit] at hlen ⊢
      have hf : (encodeFrame e).length = 4 + (encodeEntryPayload e).length := by
        unfold encodeFrame le32
        simp
        omega
      rw [List.length_append] at hlen
      have hsmall : (encodeEntryPayload e ++ (encodeWalFile es2 ++ tail)).length + 4
          ≤ 4096 := by
        rw [List.length_append]
        omega
      rw [replayBytes_frame_start e he _ db hsmall,
        replayBytes_file_buffered tail res htail es2 hes (WM.replayEntry db e)]
      unfold WM.ReplayWAL
      rw [List.foldl_cons]

theorem replayBytes_prefix_only (db : Database) (n : Nat) (h1 : 0 < n)
    (h2 : n < 4294967296) :
    WM.replayBytes db (le32 n) 0 =
      (db, some "failed to read WAL entry data: EOF") := by
  rw [show le32 n = n % 256 :: n / 256 % 256 :: n / 65536 % 256
      :: n / 16777216 % 256 :: ([] : List Nat) from rfl]
  rw [WM.replayBytes.eq_def]
  dsimp only
  rw [if_neg (show ¬ 4 ≤ 0 by omega)]
  rw [de32_le32_parts _ h2]
  simp only [List.length_nil]
  rw [show min 4096 (0 + 4 - 0) - (4 - 0) = 0 from by omega]
  rw [if_neg (show ¬ (0 < 0 ∨ n = 0) from by rintro (hc | hc) <;> omega)]
  rw [if_pos (show List.isEmpty ([] : List Nat) = true from rfl)]

theorem replayBytes_short_read (db : Database) :
    WM.replayBytes db (encodeFrame (.deleteRow "t" 0)) 5 =
      (db, some "failed to unmarshal WAL entry") := by
  rw [show encodeFrame (WalEntry.deleteRow "t" 0)
      = [10, 0, 0, 0, 4, 1, 0, 0, 0, 116, 0, 0, 0, 0] from rfl]
  rw [WM.replayBytes.eq_def]
  rfl

theorem encNum_length (n : Nat) : (encNum n).length = 4 := rfl

theorem encText_length (s : String) : (encText s).length = 4 + s.toList.length := by
  unfold encText
  rw [List.length_append, encNum_length, List.length_map]

theorem encTexts_length_one (s : String) : (encTexts [s]).length = 8 + s.toList.length := by
  unfold encTexts
  rw [List.length_append, encNum_length]
  rw [show ([s].map encText).flatten = encText s from by simp]
  rw [encText_length]
  omega

theorem straddleEntry_payload_length :
    (encodeEntryPayload straddleEntry).length = 4087 := by
  unfold straddleEntry encodeEntryPayload
  dsimp only
  rw [List.length_cons, List.length_append, encText_length, encTexts_length_one]
  rw [show ("t" : String).toList.length = 1 from rfl]
  rw [show (String.mk (List.replicate 4073 'x')).toList.length = 4073 from by
    rw [show (String.mk (List.replicate 4073 'x')).toList
      = List.replicate 4073 'x' from rfl, List.length_replicate]]

theorem textOk_straddle : textOk (String.mk (List.replicate 4073 'x')) = true := by
  unfold textOk numOk
  rw [show (String.mk (List.replicate 4073 'x')).toList.length = 4073 from by
    rw [show (String.mk (List.replicate 4073 'x')).toList
      = List.replicate 4073 'x' from rfl, List.length_replicate]]
  rfl

theorem straddleEntry_ok : entryOk straddleEntry = true := by
  unfold entryOk
  rw [Bool.and_eq_true]
  refine ⟨?_, ?_⟩
  · unfold numOk
    rw [straddleEntry_payload_length]
    rfl
  · unfold straddleEntry
    dsimp only
    rw [Bool.and_eq_true]
    refine ⟨rfl, ?_⟩
    unfold textsOk
    rw [Bool.and_eq_true]
    refine ⟨rfl, ?_⟩
    rw [List.all_cons, List.all_nil, Bool.and_eq_true]
    exact ⟨textOk_straddle, rfl⟩

theorem replayBytes_straddle (db : Database) :
    WM.replayBytes db (encodeWalFile [straddleEntry, .deleteRow "t" 0]) 0 =
      (WM.replayEntry db straddleEntry, some "failed to unmarshal WAL entry") := by
  have hsplit : encodeWalFile [straddleEntry, .deleteRow "t" 0]
      = encodeFrame straddleEntry ++ encodeFrame (.deleteRow "t" 0) := by
    unfold encodeWalFile
    simp
  have hbig : 4096 ≤ (encodeEntryPayload straddleEntry ++
      encodeFrame (.deleteRow "t" 0)).length + 4 := by
    rw [List.length_append, straddleEntry_payload_length]
    rw [show (encodeFrame (WalEntry.deleteRow "t" 0)).length = 14 from rfl]
    omega
  have hfit : (encodeEntryPayload straddleEntry).length ≤ 4092 := by
    rw [straddleEntry_payload_length]
    omega
  rw [hsplit]
  rw [replayBytes_frame_start_big straddleEntry straddleEntry_ok
    (encodeFrame (.deleteRow "t" 0)) db hbig hfit]
  rw [show 4092 - (encodeEntryPayload straddleEntry).length = 5 from by
    rw [straddleEntry_payload_length]]
  exact replayBytes_short_read (WM.replayEntry db straddleEntry)

/-- Claim C8 is false on this code: a WAL file ending in a torn length
prefix (here two stray bytes after one complete CREATE_TABLE record) does
leave the already-replayed entries applied — the table exists in the
recovered state — but replay does NOT stop cleanly: `binary.Read` fails
with `unexpected EOF`, which is not the bare `EOF` the loop breaks on, so
`ReplayWAL` returns an error. -/
theorem C8_counterexample :
    WM.replayBytes emptyDatabase
        (encodeWalFile [.createTable "t" ["id"]] ++ [0, 0]) 0 =
      (WM.ReplayWAL emptyDatabase [.createTable "t" ["id"]],
       some "failed to read WAL entry length: unexpected EOF") ∧
    (lookupA (WM.ReplayWAL emptyDatabase [.createTable "t" ["id"]]).tables "t").isSome =
      true := by
  constructor
  · exact replayBytes_file_start [0, 0] _
      (fun d => replayBytes_short d [0, 0] _ (by decide) (by decide))
      (fun d => replayBytes_short d [0, 0] 0 (by decide) (by decide))
      [.createTable "t" ["id"]] (by decide) emptyDatabase (by decide)
  · decide

/-- C8 amended: replay reads the WAL through a 4096-byte buffered reader.
For files that fit one buffer window, every complete record is applied in
order and a well-formed file replays without error; a torn tail is an
error, not a clean stop: one to three trailing bytes fail the length read
with `unexpected EOF` (not the bare `EOF` the loop breaks on) while the
entries before the tear stay applied; a complete length prefix with no
payload bytes behind it fails the payload read with `EOF`; and a payload
shorter than its length prefix is read short into a zero-initialized
buffer whose padded contents fail to unmarshal.  Beyond one window the
single payload `Read` returns only the bytes still buffered, so even a
clean two-record file whose second payload straddles the refill boundary
gets a short read and an unmarshal error, with only the first record
applied.  (`NewDatabase` ignores the returned error, which is why the
recovered state survives.) -/
theorem C8_amended :
    (∀ (db : Database) (es : List WalEntry), es.all entryOk = true →
      (encodeWalFile es).length ≤ 4096 →
      WM.replayBytes db (encodeWalFile es) 0 = (WM.ReplayWAL db es, none)) ∧
    (∀ (db : Database) (es : List WalEntry) (tail : List Nat), es.all entryOk = true →
      tail ≠ [] → tail.length < 4 → (encodeWalFile es ++ tail).length ≤ 4096 →
      WM.replayBytes db (encodeWalFile es ++ tail) 0 =
        (WM.ReplayWAL db es, some "failed to read WAL entry length: unexpected EOF")) ∧
    (∀ (db : Database) (n : Nat), 0 < n → n < 4294967296 →
      WM.replayBytes db (le32 n) 0 =
        (db, some "failed to read WAL entry data: EOF")) ∧
    (∀ db : Database, WM.replayBytes db (le32 10 ++ [6]) 0 =
      (db, some "failed to unmarshal WAL entry")) ∧
    (∀ db : Database,
      WM.replayBytes db (encodeWalFile [straddleEntry, .deleteRow "t" 0]) 0 =
        (WM.replayEntry db straddleEntry, some "failed to unmarshal WAL entry")) := by
  refine ⟨?_, ?_, ?_, ?_, ?_⟩
  · intro db es h hlen
    have hres := replayBytes_file_start [] none (fun d => replayBytes_nil d _)
      (fun d => replayBytes_nil d 0) es h db (by rw [List.append_nil]; exact hlen)
    rw [List.append_nil] at hres
    exact hres
  · intro db es tail h h1 h2 hlen
    exact replayBytes_file_start tail _
      (fun d => replayBytes_short d tail _ h1 h2)
      (fun d => replayBytes_short d tail 0 h1 h2) es h db hlen
  · intro db n h1 h2
    exact replayBytes_prefix_only db n h1 h2
  · intro db
    rw [show le32 10 ++ [6] = [10, 0, 0, 0, 6] from rfl]
    rw [WM.replayBytes.eq_def]
    rfl
  · intro db
    exact replayBytes_straddle db

theorem C8_amended_witness :
    WM.replayBytes emptyDatabase (encodeWalFile [.checkpoint]) 0 =
      (WM.ReplayWAL emptyDatabase [.checkpoint], none) ∧
    WM.replayBytes emptyDatabase (encodeWalFile [.checkpoint] ++ [1]) 0 =
      (WM.ReplayWAL emptyDatabase [.checkpoint],
       some "failed to read WAL entry length: unexpected EOF") ∧
    WM.replayBytes emptyDatabase (le32 7) 0 =
      (emptyDatabase, some "failed to read WAL entry data: EOF") ∧
    WM.replayBytes emptyDatabase (le32 10 ++ [6]) 0 =
      (emptyDatabase, some "failed to unmarshal WAL entry") ∧
    WM.replayBytes emptyDatabase (encodeWalFile [straddleEntry, .deleteRow "t" 0]) 0 =
      (WM.replayEntry emptyDatabase straddleEntry,
       some "failed to unmarshal WAL entry") :=
  ⟨C8_amended.1 emptyDatabase [.checkpoint] (by decide) (by decide),
   C8_amended.2.1 emptyDatabase [.checkpoint] [1] (by decide) (by decide) (by decide)
     (by decide),
   C8_amended.2.2.1 emptyDatabase 7 (by decide) (by decide),
   C8_amended.2.2.2.1 emptyDatabase,
   C8_amended.2.2.2.2 emptyDatabase⟩

end HaruDB
